import Mathlib

/-!
# Verification of the png2xsp sprite-sheet converter

Shallow embedding of the core conversion pipeline of png2xsp
(`src/main.c`, `src/records.c`, `src/records.h`, `src/types.h`):
the region scanner (`claim`), the per-frame extraction loop
(`chop_sprite`), the record accumulators (`record_*` in records.c),
the palette converter, and the two output layouts produced by
`record_complete`.

The pixel buffer is modelled as a total function from flat index to
palette value (`Img`); machine integers are modelled as `Int`/`Nat`
with explicit wrapping where the C code truncates (`toInt16`, byte
serialization).  Diagnostics printed by the C code are modelled as an
append-only `log` inside the recording state.
-/

namespace Png2xsp

/-- Conversion mode, from types.h. -/
inductive ConvMode
  | XOBJ
  | SP
deriving DecidableEq, Repr

/-- PCG_TILE_PX from types.h. -/
def PCG_TILE_PX : Int := 16

/-- PCG_PT_MAX_COUNT from records.h. -/
def PCG_PT_MAX_COUNT : Nat := 32768

/-- PCG_REF_MAX_COUNT from records.h (32768/8 = 4096 entries). -/
def PCG_REF_MAX_COUNT : Nat := 32768 / 8

/-- PCG_FRM_MAX_COUNT from records.h (a byte count). -/
def PCG_FRM_MAX_COUNT : Nat := 32768

/-- A decoded indexed image: flat pixel buffer, addressed as x + y*iw
exactly like the C code's `imgdat[x + (y * iw)]`. -/
def Img : Type := Int → Nat

/-- First index `i` with `i0 ≤ i < i0 + fuel` satisfying `p`,
scanning upward from `i0` (models the C `for` scan loops). -/
def findFirstAux (p : Nat → Bool) : Nat → Nat → Option Nat
  | 0, _ => none
  | fuel + 1, i => if p i then some i else findFirstAux p fuel (i + 1)

/-- First index `i < n` satisfying `p`, or none. -/
def findFirst (p : Nat → Bool) (n : Nat) : Option Nat :=
  findFirstAux p n 0

/-- Inner x-loop of the first scan in `claim` (main.c): does row `y`
of the search rectangle contain a non-transparent pixel? -/
def rowOcc (img : Img) (iw sx : Int) (sw : Int) (y : Int) : Bool :=
  (findFirst (fun i => img (sx + (i : Int) + y * iw) != 0) sw.toNat).isSome

/-- First scan of `claim` (main.c): walk down row by row looking for
non-transparent pixel data; result is the row found, if any. -/
def claimRow (img : Img) (iw sx sy sw sh : Int) : Option Int :=
  match findFirst (fun j => rowOcc img iw sx sw (sy + (j : Int))) sh.toNat with
  | none => none
  | some j => some (sy + (j : Int))

/-- Inner y-loop of the second scan in `claim`: does column `x` hold a
non-transparent pixel in rows `[row, ylim)`? -/
def colOcc (img : Img) (iw x row ylim : Int) : Bool :=
  (findFirst (fun j => img (x + (row + (j : Int)) * iw) != 0) (ylim - row).toNat).isSome

/-- Second scan of `claim`: scan columns left to right over a band of
up to PCG_TILE_PX rows below `row`, clipped to the rectangle bottom. -/
def claimCol (img : Img) (iw sx sy sw sh row : Int) : Option Int :=
  match findFirst
      (fun i => colOcc img iw (sx + (i : Int)) row (min (row + PCG_TILE_PX) (sy + sh)))
      sw.toNat with
  | none => none
  | some i => some (sx + (i : Int))

/-- `claim` from main.c: hunt top-down, then left-right, for a sprite
to clip.  Returns the (col, row) of the hit, or none when the search
rectangle holds no non-transparent pixel.  The defensive
no-column-found branch of the C code maps to the inner `none` case. -/
def claim (img : Img) (iw sx sy sw sh : Int) : Option (Int × Int) :=
  match claimRow img iw sx sy sw sh with
  | none => none
  | some row =>
    match claimCol img iw sx sy sw sh row with
    | none => none
    | some col => some (col, row)

/-- Modelled from the spec: one pixel read of `clip_8x8_tile` from
util.c, which is not under src/.  A source coordinate at or past the
clip limits reads as transparent (0) instead of touching data outside
the clip rectangle. -/
def clipPx (img : Img) (iw x y limx limy : Int) : Nat :=
  if x < limx ∧ y < limy then img (x + y * iw) else 0

/-- Modelled from the spec: the pixel block emitted by `clip_8x8_tile`
(util.c, not under src/).  One 8x8 block of palette indices, row
major; 32 bytes with two 4-bit pixels per byte, high nibble first, as
forced by the 128-bytes-per-16x16-tile layout of records.c. -/
def clip_8x8_tile (img : Img) (iw cx cy limx limy : Int) : List Nat :=
  (List.range 8).flatMap (fun j =>
    (List.range 4).map (fun i =>
      16 * (clipPx img iw (cx + 2 * (i : Int)) (cy + (j : Int)) limx limy % 16) +
      clipPx img iw (cx + 2 * (i : Int) + 1) (cy + (j : Int)) limx limy % 16))

/-- Is flat index `n` one of the in-bounds addresses of the 8x8 block
at (cx, cy)?  Used to model the destructive clear of consumed pixels. -/
def inClip (iw cx cy limx limy n : Int) : Bool :=
  decide (∃ i : Fin 8, ∃ j : Fin 8, cx + (i : Int) < limx ∧ cy + (j : Int) < limy ∧
    n = cx + (i : Int) + (cy + (j : Int)) * iw)

/-- Modelled from the spec: the destructive side effect of
`clip_8x8_tile` (util.c, not under src/): every in-bounds pixel
consumed into the emitted block is cleared to 0 in the working
buffer. -/
def erase_8x8 (img : Img) (iw cx cy limx limy : Int) : Img :=
  fun n => if inClip iw cx cy limx limy n then 0 else img n

/-- One `clip_8x8_tile` call: read the block, then clear it. -/
def clipStep (img : Img) (iw cx cy limx limy : Int) : List Nat × Img :=
  (clip_8x8_tile img iw cx cy limx limy, erase_8x8 img iw cx cy limx limy)

/-- The four `clip_8x8_tile` calls of `chop_sprite` (main.c), in
source order TL, BL, TR, BR, producing the 128-byte candidate tile
and the updated (cleared) buffer. -/
def clip16 (img : Img) (iw cx cy limx limy : Int) : List Nat × Img :=
  let s0 := clipStep img iw cx cy limx limy
  let s1 := clipStep s0.2 iw cx (cy + 8) limx limy
  let s2 := clipStep s1.2 iw (cx + 8) cy limx limy
  let s3 := clipStep s2.2 iw (cx + 8) (cy + 8) limx limy
  (s0.1 ++ s1.1 ++ s2.1 ++ s3.1, s3.2)

/-- Number of non-transparent pixels in the search rectangle; the
measure that the destructive extraction loop strictly decreases. -/
def nzCount (img : Img) (iw sx sy sw sh : Int) : Nat :=
  ((Finset.range sw.toNat ×ˢ Finset.range sh.toNat).filter
    (fun p => img (sx + (p.1 : Int) + (sy + (p.2 : Int)) * iw) ≠ 0)).card

/-- A diagnostic message printed by the extraction code. -/
inductive Diag
  | pcgFull
deriving DecidableEq, Repr

/-- One stored FRM (composition) entry: the four 16-bit fields of
records.c, with dx/dy/pt kept as the signed values their big-endian
bytes decode to. -/
structure FrmEntry where
  dx : Int
  dy : Int
  pt : Int
  rv : Nat
deriving DecidableEq, Repr

/-- One stored REF (reference) entry. -/
structure RefEntry where
  spCount : Nat
  frmOffs : Nat
deriving DecidableEq, Repr

/-- The accumulating recording state of records.c (s_pcg_dat,
s_frm_dat, s_ref_dat, s_pal_dat) plus the diagnostics log. -/
structure RecState where
  pcg : List (List Nat)
  frm : List FrmEntry
  ref : List RefEntry
  pal : List Nat
  log : List Diag
deriving DecidableEq, Repr

/-- State after `record_init` (all counters zero, palette buffer
zero-initialized). -/
def record_init : RecState :=
  ⟨[], [], [], List.replicate 16 0, []⟩

/-- `record_get_frm_offs`: the byte offset of the next FRM entry. -/
def record_get_frm_offs (st : RecState) : Nat := 8 * st.frm.length

/-- Truncation of an integer to a signed 16-bit value, as storing via
`set_int16be` and re-reading does. -/
def toInt16 (v : Int) : Int := (v + 32768) % 65536 - 32768

/-- `record_ref_dat` from records.c: silently drops the entry when the
REF table is at capacity. -/
def record_ref_dat (st : RecState) (spCount frmOffs : Nat) : RecState :=
  if PCG_REF_MAX_COUNT ≤ st.ref.length then st
  else { st with ref := st.ref ++ [⟨spCount % 65536, frmOffs % 4294967296⟩] }

/-- `record_frm_dat` from records.c: silently drops the entry when the
FRM byte area is at capacity; fields are truncated to 16 bits. -/
def record_frm_dat (st : RecState) (vx vy pt : Int) (rv : Nat) : RecState :=
  if PCG_FRM_MAX_COUNT ≤ 8 * st.frm.length then st
  else { st with frm := st.frm ++ [⟨toInt16 vx, toInt16 vy, toInt16 pt, rv % 65536⟩] }

/-- `record_pcg_dat` from records.c: silently drops the tile when the
pattern table is at capacity. -/
def record_pcg_dat (st : RecState) (tile : List Nat) : RecState :=
  if PCG_PT_MAX_COUNT ≤ st.pcg.length then st
  else { st with pcg := st.pcg ++ [tile] }

/-- `record_pal_dat` from records.c: ignores out-of-range indices. -/
def record_pal_dat (st : RecState) (idx : Int) (val : Nat) : RecState :=
  if 16 ≤ idx ∨ idx < 0 then st
  else { st with pal := st.pal.set idx.toNat (val % 65536) }

/-- Linear scan of `record_find_pcg_dat`, with running index. -/
def findTileAux (tile : List Nat) : List (List Nat) → Nat → Option Nat
  | [], _ => none
  | t :: rest, i => if t = tile then some i else findTileAux tile rest (i + 1)

/-- `record_find_pcg_dat` from records.c: first stored tile whose 128
bytes equal `tile`, or none (the C code's -1). -/
def record_find_pcg_dat (pcg : List (List Nat)) (tile : List Nat) : Option Nat :=
  findTileAux tile pcg 0

/-- Ghost trace entry: one sprite extracted by the per-frame loop,
with the claim hit position, the extracted 128-byte tile, and the
pattern index assigned to it (none when the pattern table was full). -/
structure SpriteEv where
  cx : Int
  cy : Int
  tile : List Nat
  ptIdx : Option Nat
deriving DecidableEq, Repr

/-- How one run of the per-frame loop ended. -/
inductive LoopExit
  | done
  | pcgFull
  | fuelOut
deriving DecidableEq, Repr

/-- Result of the per-frame extraction loop. -/
structure LoopRes where
  img : Img
  st : RecState
  spCount : Nat
  exit : LoopExit
  trace : List SpriteEv

/-- The `while (claim(...))` loop body of `chop_sprite` (main.c),
with explicit fuel.  `ox`/`oy` are the origin values after the
half-tile adjustment done at the top of `chop_sprite`.  The `trace`
of the result is a ghost record of the sprites extracted, in order;
it does not influence the recording state. -/
def chopLoopF (iw : Int) (mode : ConvMode) (ox oy sx sy sw sh : Int) :
    Nat → Img → RecState → Nat → Int → Int → LoopRes
  | fuel, img, st, spCount, lastVx, lastVy =>
    match claim img iw sx sy sw sh with
    | none => ⟨img, st, spCount, LoopExit.done, []⟩
    | some hit =>
      match fuel with
      | 0 => ⟨img, st, spCount, LoopExit.fuelOut, []⟩
      | fuel' + 1 =>
        let cx := hit.1
        let cy := hit.2
        let spCount' := (spCount + 1) % 65536
        let clipped := clip16 img iw cx cy (sx + sw) (sy + sh)
        let tile := clipped.1
        let img' := clipped.2
        match (if mode = ConvMode.XOBJ then record_find_pcg_dat st.pcg tile else none) with
        | some i =>
          let vx := Int.tmod cx sw - ox
          let vy := Int.tmod cy sh - oy
          let st' := record_frm_dat st (vx - lastVx) (vy - lastVy) (i : Int) 0
          let r := chopLoopF iw mode ox oy sx sy sw sh fuel' img' st' spCount' vx vy
          ⟨r.img, r.st, r.spCount, r.exit, ⟨cx, cy, tile, some i⟩ :: r.trace⟩
        | none =>
          if PCG_PT_MAX_COUNT ≤ st.pcg.length then
            ⟨img', { st with log := st.log ++ [Diag.pcgFull] }, spCount', LoopExit.pcgFull,
              [⟨cx, cy, tile, none⟩]⟩
          else
            let ptIdx := st.pcg.length
            let st' := record_pcg_dat st tile
            match mode with
            | ConvMode.SP =>
              let r := chopLoopF iw mode ox oy sx sy sw sh fuel' img' st' spCount' lastVx lastVy
              ⟨r.img, r.st, r.spCount, r.exit, ⟨cx, cy, tile, some ptIdx⟩ :: r.trace⟩
            | ConvMode.XOBJ =>
              let vx := Int.tmod cx sw - ox
              let vy := Int.tmod cy sh - oy
              let st'' := record_frm_dat st' (vx - lastVx) (vy - lastVy) (ptIdx : Int) 0
              let r := chopLoopF iw mode ox oy sx sy sw sh fuel' img' st'' spCount' vx vy
              ⟨r.img, r.st, r.spCount, r.exit, ⟨cx, cy, tile, some ptIdx⟩ :: r.trace⟩

/-- Result of `chop_sprite` for one frame. -/
structure ChopRes where
  img : Img
  st : RecState
  exit : LoopExit
  trace : List SpriteEv

/-- `chop_sprite` from main.c: record the FRM offset for the frame,
shift the origin by half a tile, run the extraction loop, and (XOBJ
mode, loop not aborted) commit one REF entry with the final sprite
count.  The fuel `sw*sh` bounds the pixel count of the frame, which
bounds the iteration count (each iteration clears at least one
non-transparent pixel). -/
def chop_sprite (img : Img) (iw : Int) (mode : ConvMode) (ox oy sx sy sw sh : Int)
    (st : RecState) : ChopRes :=
  let frmOffs0 := record_get_frm_offs st
  let ox' := ox - Int.tdiv PCG_TILE_PX 2
  let oy' := oy - Int.tdiv PCG_TILE_PX 2
  let r := chopLoopF iw mode ox' oy' sx sy sw sh (sw.toNat * sh.toNat) img st 0 0 0
  match r.exit with
  | LoopExit.done =>
    match mode with
    | ConvMode.XOBJ => ⟨r.img, record_ref_dat r.st r.spCount frmOffs0, r.exit, r.trace⟩
    | ConvMode.SP => ⟨r.img, r.st, r.exit, r.trace⟩
  | _ => ⟨r.img, r.st, r.exit, r.trace⟩

/-- Row-major frame coordinates of the double loop in `main`. -/
def frameList (rows cols : Nat) : List (Nat × Nat) :=
  (List.range rows).flatMap (fun y => (List.range cols).map (fun x => (y, x)))

/-- Result of processing a list of frames. -/
structure RunRes where
  img : Img
  st : RecState
  trace : List SpriteEv

/-- The frame loop of `main`: chop every frame in order, threading the
destructively updated image and the recording state. -/
def processFrames (iw : Int) (mode : ConvMode) (ox oy fw fh : Int) :
    List (Nat × Nat) → Img → RecState → RunRes
  | [], img, st => ⟨img, st, []⟩
  | (y, x) :: rest, img, st =>
    let r := chop_sprite img iw mode ox oy ((x : Int) * fw) ((y : Int) * fh) fw fh st
    let rr := processFrames iw mode ox oy fw fh rest r.img r.st
    ⟨rr.img, rr.st, r.trace ++ rr.trace⟩

/-- Origin default substitution and clamping from `main` (main.c lines
356-360).  Deliberately faithful to the source: the final y test
compares the origin against the frame width, not the frame height. -/
def normalize_origin (fw fh ox oy : Int) : Int × Int :=
  let ox1 := if ox < 0 then Int.tdiv fw 2 else ox
  let oy1 := if oy < 0 then Int.tdiv fh 2 else oy
  let ox2 := if ox1 > fw then fw else ox1
  let oy2 := if oy1 > fw then fh else oy1
  (ox2, oy2)

/-- Mode selection from `main`: SP when both frame dimensions are at
most one tile, XOBJ otherwise. -/
def conv_mode (fw fh : Int) : ConvMode :=
  if fw ≤ PCG_TILE_PX ∧ fh ≤ PCG_TILE_PX then ConvMode.SP else ConvMode.XOBJ

/-- The whole extraction phase of `main`: normalize the origin, derive
the mode and the sheet grid, and chop every frame starting from the
freshly initialized recording state. -/
def convert (img : Img) (iw ih fw fh oxArg oyArg : Int) : RunRes :=
  let o := normalize_origin fw fh oxArg oyArg
  let mode := conv_mode fw fh
  let rows := (Int.tdiv ih fh).toNat
  let cols := (Int.tdiv iw fw).toNat
  processFrames iw mode o.1 o.2 fw fh (frameList rows cols) img record_init

/-- The RGB555 packing of the palette loop in `main`. -/
def pal_entry (r g b : Nat) : Nat :=
  (((r >>> 3) &&& 31) <<< 6) ||| (((g >>> 3) &&& 31) <<< 11) ||| (((b >>> 3) &&& 31) <<< 1)

/-- The palette extraction loop of `main`: entry 0 is set to 0, then
entries 1..15 are converted from the RGBA source palette (four bytes
per entry, in RGBA order). -/
def convert_palette (srcPal : Nat → Nat) (st : RecState) : RecState :=
  let st0 := record_pal_dat st 0 0
  (List.range 15).foldl (fun s k =>
    let i := k + 1
    let r := srcPal (4 * i) % 256
    let g := srcPal (4 * i + 1) % 256
    let b := srcPal (4 * i + 2) % 256
    record_pal_dat s (i : Int) (pal_entry r g b)) st0

/-- Big-endian byte pair of a 16-bit value, as `set_uint16be`. -/
def be16 (v : Nat) : List Nat := [v / 256 % 256, v % 256]

/-- Big-endian bytes of a 32-bit value, as `set_uint32be`. -/
def be32 (v : Nat) : List Nat := be16 (v >>> 16) ++ be16 v

/-- Big-endian bytes of a stored signed 16-bit value. -/
def beInt16 (v : Int) : List Nat := be16 (v % 65536).toNat

/-- The 8 bytes of one REF entry as laid out by `record_ref_dat`. -/
def refEntryBytes (r : RefEntry) : List Nat :=
  be16 r.spCount ++ be32 r.frmOffs ++ be16 0

/-- The 8 bytes of one FRM entry as laid out by `record_frm_dat`. -/
def frmEntryBytes (e : FrmEntry) : List Nat :=
  beInt16 e.dx ++ beInt16 e.dy ++ beInt16 e.pt ++ be16 e.rv

/-- The reference table section, as written by `record_complete`. -/
def refBytes (st : RecState) : List Nat := st.ref.flatMap refEntryBytes

/-- The composition table section, as written by `record_complete`. -/
def frmBytes (st : RecState) : List Nat := st.frm.flatMap frmEntryBytes

/-- One 128-byte tile as `fwrite(s_pcg_dat, 128, ...)` emits it: the
write always covers exactly 128 bytes of the tile buffer. -/
def tileBytes (t : List Nat) : List Nat := (t ++ List.replicate 128 0).take 128

/-- The tile atlas section, as written by `record_complete`. -/
def pcgBytes (st : RecState) : List Nat := st.pcg.flatMap tileBytes

/-- The palette section: 16 big-endian 16-bit entries. -/
def palBytes (st : RecState) : List Nat :=
  ((st.pal ++ List.replicate 16 0).take 16).flatMap be16

/-- sizeof(XSBHeader): 4 + 16 uint16 fields and 3 uint32 fields. -/
def XSBHEADER_SIZE : Nat := 52

/-- The XSB header fields as computed in `record_complete`
(records.c): the three offsets are running totals of the preceding
section sizes starting after the header. -/
structure XSBHeader where
  type : Nat
  ref_count : Nat
  frm_bytes : Nat
  pcg_count : Nat
  pal : List Nat
  ref_offs : Nat
  frm_offs : Nat
  pcg_offs : Nat

/-- Header construction from `record_complete` (bundle branch). -/
def make_header (st : RecState) (mode : ConvMode) : XSBHeader :=
  let ref_offs := XSBHEADER_SIZE
  let frm_offs := ref_offs + 8 * st.ref.length
  let pcg_offs := frm_offs + 8 * st.frm.length
  ⟨(if mode = ConvMode.XOBJ then 0 else 1), st.ref.length, 8 * st.frm.length,
    st.pcg.length, st.pal, ref_offs, frm_offs, pcg_offs⟩

/-- Serialized header: every multi-byte field big-endian, 16-bit
fields truncated as `set_uint16be` does. -/
def headerBytes (h : XSBHeader) : List Nat :=
  be16 h.type ++ be16 h.ref_count ++ be16 h.frm_bytes ++ be16 h.pcg_count ++
  ((h.pal ++ List.replicate 16 0).take 16).flatMap be16 ++
  be32 h.ref_offs ++ be32 h.frm_offs ++ be32 h.pcg_offs

/-- The bundle file contents written by `record_complete` with the
bundle flag set: header, then (XOBJ only) reference table and
composition table, then the tile atlas. -/
def bundleBytes (st : RecState) (mode : ConvMode) : List Nat :=
  headerBytes (make_header st mode) ++
  (match mode with
   | ConvMode.XOBJ => refBytes st ++ frmBytes st
   | ConvMode.SP => []) ++
  pcgBytes st

/-- Which output file a chunk of bytes goes to in the split layout. -/
inductive OutFile
  | xsp
  | sp
  | pal
  | ref
  | frm
deriving DecidableEq, Repr

/-- The files written by `record_complete` without the bundle flag:
tile data and palette always; REF and FRM only in XOBJ mode. -/
def splitOutputs (st : RecState) (mode : ConvMode) : List (OutFile × List Nat) :=
  [((match mode with | ConvMode.XOBJ => OutFile.xsp | ConvMode.SP => OutFile.sp), pcgBytes st),
   (OutFile.pal, palBytes st)] ++
  (match mode with
   | ConvMode.XOBJ => [(OutFile.ref, refBytes st), (OutFile.frm, frmBytes st)]
   | ConvMode.SP => [])

/-- The FRM entries one run of the XOBJ extraction loop appends,
computed from its ghost trace: each stored sprite contributes one
entry whose delta fields are taken against the previous sprite's
absolute placement and truncated to 16 bits exactly as
`record_frm_dat` stores them; a pattern-table abort (ptIdx none) ends
the frame with no further entry. -/
def frmAdds (sw sh ox oy : Int) : Int → Int → List SpriteEv → List FrmEntry
  | _, _, [] => []
  | lx, ly, e :: rest =>
    match e.ptIdx with
    | none => []
    | some i =>
      ⟨toInt16 (Int.tmod e.cx sw - ox - lx), toInt16 (Int.tmod e.cy sh - oy - ly),
        toInt16 (i : Int), 0⟩ ::
        frmAdds sw sh ox oy (Int.tmod e.cx sw - ox) (Int.tmod e.cy sh - oy) rest

/-- Every delta fed to `record_frm_dat` along a trace fits in a
signed 16-bit integer, so no stored delta wraps. -/
def deltasOk (sw sh ox oy : Int) : Int → Int → List SpriteEv → Bool
  | _, _, [] => true
  | lx, ly, e :: rest =>
    decide (-32768 ≤ Int.tmod e.cx sw - ox - lx) &&
    decide (Int.tmod e.cx sw - ox - lx ≤ 32767) &&
    decide (-32768 ≤ Int.tmod e.cy sh - oy - ly) &&
    decide (Int.tmod e.cy sh - oy - ly ≤ 32767) &&
    deltasOk sw sh ox oy (Int.tmod e.cx sw - ox) (Int.tmod e.cy sh - oy) rest

/-! ## Scanner characterization -/

/-- Every pixel of the search rectangle is transparent. -/
def rectTransparent (img : Img) (iw sx sy sw sh : Int) : Prop :=
  ∀ x y : Int, sx ≤ x → x < sx + sw → sy ≤ y → y < sy + sh → img (x + y * iw) = 0

theorem findFirstAux_succ (p : Nat → Bool) (n i : Nat) :
    findFirstAux p (n + 1) i = if p i = true then some i else findFirstAux p n (i + 1) := rfl

theorem findFirstAux_eq_none_iff {p : Nat → Bool} :
    ∀ {fuel i}, findFirstAux p fuel i = none ↔ ∀ j, i ≤ j → j < i + fuel → p j = false := by
  intro fuel
  induction fuel with
  | zero =>
    intro i
    constructor
    · intro _ j h1 h2
      omega
    · intro _
      rfl
  | succ n ih =>
    intro i
    rcases hp : p i with _ | _
    · rw [findFirstAux_succ, if_neg (by simp [hp]), ih]
      constructor
      · intro h j h1 h2
        rcases Nat.eq_or_lt_of_le h1 with heq | hlt
        · rw [← heq]
          exact hp
        · exact h j hlt (by omega)
      · intro h j h1 h2
        exact h j (by omega) (by omega)
    · rw [findFirstAux_succ, if_pos hp]
      constructor
      · intro h
        exact absurd h (by simp)
      · intro h
        have h2 := h i (Nat.le_refl i) (by omega)
        rw [hp] at h2
        exact absurd h2 (by simp)

theorem findFirstAux_eq_some_iff {p : Nat → Bool} :
    ∀ {fuel i k}, findFirstAux p fuel i = some k ↔
      i ≤ k ∧ k < i + fuel ∧ p k = true ∧ ∀ j, i ≤ j → j < k → p j = false := by
  intro fuel
  induction fuel with
  | zero =>
    intro i k
    constructor
    · intro h
      exact absurd h (by simp [findFirstAux])
    · intro h
      obtain ⟨h1, h2, -, -⟩ := h
      omega
  | succ n ih =>
    intro i k
    rcases hp : p i with _ | _
    · rw [findFirstAux_succ, if_neg (by simp [hp]), ih]
      constructor
      · rintro ⟨h1, h2, hk, hmin⟩
        refine ⟨by omega, by omega, hk, fun j hj1 hj2 => ?_⟩
        rcases Nat.eq_or_lt_of_le hj1 with heq | hlt
        · rw [← heq]
          exact hp
        · exact hmin j hlt hj2
      · rintro ⟨h1, h2, hk, hmin⟩
        have hik : i ≠ k := by
          rintro rfl
          rw [hp] at hk
          exact absurd hk (by simp)
        exact ⟨by omega, by omega, hk, fun j hj1 hj2 => hmin j (by omega) hj2⟩
    · rw [findFirstAux_succ, if_pos hp]
      constructor
      · intro h
        rw [Option.some_inj] at h
        subst h
        exact ⟨Nat.le_refl i, by omega, hp, fun j h1 h2 => by omega⟩
      · rintro ⟨h1, _, hk, hmin⟩
        rcases Nat.eq_or_lt_of_le h1 with heq | hlt
        · rw [heq]
        · have h2 := hmin i (Nat.le_refl i) hlt
          rw [hp] at h2
          exact absurd h2 (by simp)

theorem findFirst_eq_none_iff {p : Nat → Bool} {n : Nat} :
    findFirst p n = none ↔ ∀ j, j < n → p j = false := by
  simp only [findFirst, findFirstAux_eq_none_iff]
  constructor
  · intro h j hj
    exact h j (Nat.zero_le j) (by omega)
  · intro h j _ hj
    exact h j (by omega)

theorem findFirst_eq_some_iff {p : Nat → Bool} {n k : Nat} :
    findFirst p n = some k ↔ k < n ∧ p k = true ∧ ∀ j, j < k → p j = false := by
  simp only [findFirst, findFirstAux_eq_some_iff]
  constructor
  · rintro ⟨_, h2, h3, h4⟩
    exact ⟨by omega, h3, fun j hj => h4 j (Nat.zero_le j) hj⟩
  · rintro ⟨h1, h2, h3⟩
    exact ⟨Nat.zero_le k, by omega, h2, fun j _ hj => h3 j hj⟩

theorem findFirst_isSome_iff {p : Nat → Bool} {n : Nat} :
    (findFirst p n).isSome = true ↔ ∃ j, j < n ∧ p j = true := by
  rcases h : findFirst p n with _ | k
  · rw [findFirst_eq_none_iff] at h
    simp only [Option.isSome_none, Bool.false_eq_true, false_iff]
    rintro ⟨j, hj, hp⟩
    rw [h j hj] at hp
    exact absurd hp (by simp)
  · rw [findFirst_eq_some_iff] at h
    simp only [Option.isSome_some, true_iff]
    exact ⟨k, h.1, h.2.1⟩

theorem rowOcc_eq_true_iff {img : Img} {iw sx sw y : Int} :
    rowOcc img iw sx sw y = true ↔ ∃ x : Int, sx ≤ x ∧ x < sx + sw ∧ img (x + y * iw) ≠ 0 := by
  simp only [rowOcc, findFirst_isSome_iff, bne_iff_ne]
  constructor
  · rintro ⟨j, hj, hp⟩
    exact ⟨sx + (j : Int), by omega, by omega, hp⟩
  · rintro ⟨x, h1, h2, hp⟩
    refine ⟨(x - sx).toNat, by omega, ?_⟩
    have : sx + ((x - sx).toNat : Int) = x := by omega
    rw [this]
    exact hp

theorem colOcc_eq_true_iff {img : Img} {iw x row ylim : Int} :
    colOcc img iw x row ylim = true ↔ ∃ y : Int, row ≤ y ∧ y < ylim ∧ img (x + y * iw) ≠ 0 := by
  simp only [colOcc, findFirst_isSome_iff, bne_iff_ne]
  constructor
  · rintro ⟨j, hj, hp⟩
    exact ⟨row + (j : Int), by omega, by omega, hp⟩
  · rintro ⟨y, h1, h2, hp⟩
    refine ⟨(y - row).toNat, by omega, ?_⟩
    have : row + ((y - row).toNat : Int) = y := by omega
    rw [this]
    exact hp

theorem claimRow_eq_some_iff {img : Img} {iw sx sy sw sh row : Int} :
    claimRow img iw sx sy sw sh = some row ↔
      sy ≤ row ∧ row < sy + sh ∧ rowOcc img iw sx sw row = true ∧
      ∀ y, sy ≤ y → y < row → rowOcc img iw sx sw y = false := by
  rcases hf : findFirst (fun j => rowOcc img iw sx sw (sy + (j : Int))) sh.toNat with _ | j
  · simp only [claimRow, hf]
    rw [findFirst_eq_none_iff] at hf
    constructor
    · intro h
      exact absurd h (by simp)
    · rintro ⟨h1, h2, hocc, -⟩
      have h3 := hf (row - sy).toNat (by omega)
      have hy : sy + (((row - sy).toNat : Nat) : Int) = row := by omega
      rw [hy, hocc] at h3
      exact absurd h3 (by simp)
  · rw [findFirst_eq_some_iff] at hf
    obtain ⟨hj, hp, hmin⟩ := hf
    have hrw : claimRow img iw sx sy sw sh = some (sy + (j : Int)) := by
      simp only [claimRow]
      rw [show findFirst (fun j => rowOcc img iw sx sw (sy + (j : Int))) sh.toNat = some j from
        findFirst_eq_some_iff.mpr ⟨hj, hp, hmin⟩]
    rw [hrw, Option.some_inj]
    constructor
    · rintro rfl
      refine ⟨by omega, by omega, hp, fun y h1 h2 => ?_⟩
      have h3 := hmin (y - sy).toNat (by omega)
      have hy : sy + (((y - sy).toNat : Nat) : Int) = y := by omega
      rwa [hy] at h3
    · rintro ⟨h1, h2, hocc, hminr⟩
      by_contra hne
      rcases lt_or_gt_of_ne hne with hlt | hgt
      · have h3 := hminr (sy + (j : Int)) (by omega) (by omega)
        rw [hp] at h3
        exact absurd h3 (by simp)
      · have h3 := hmin (row - sy).toNat (by omega)
        have hy : sy + (((row - sy).toNat : Nat) : Int) = row := by omega
        rw [hy, hocc] at h3
        exact absurd h3 (by simp)

theorem claimRow_eq_none_iff {img : Img} {iw sx sy sw sh : Int} :
    claimRow img iw sx sy sw sh = none ↔
      ∀ y, sy ≤ y → y < sy + sh → rowOcc img iw sx sw y = false := by
  rcases hf : findFirst (fun j => rowOcc img iw sx sw (sy + (j : Int))) sh.toNat with _ | j
  · simp only [claimRow, hf]
    rw [findFirst_eq_none_iff] at hf
    constructor
    · intro _ y h1 h2
      have h3 := hf (y - sy).toNat (by omega)
      have hy : sy + (((y - sy).toNat : Nat) : Int) = y := by omega
      rwa [hy] at h3
    · intro _
      trivial
  · simp only [claimRow, hf]
    rw [findFirst_eq_some_iff] at hf
    obtain ⟨hj, hp, -⟩ := hf
    constructor
    · intro h
      exact absurd h (by simp)
    · intro h
      have h3 := h (sy + (j : Int)) (by omega) (by omega)
      rw [hp] at h3
      exact absurd h3 (by simp)

theorem claimCol_eq_some_iff {img : Img} {iw sx sy sw sh row col : Int} :
    claimCol img iw sx sy sw sh row = some col ↔
      sx ≤ col ∧ col < sx + sw ∧
      colOcc img iw col row (min (row + PCG_TILE_PX) (sy + sh)) = true ∧
      ∀ x, sx ≤ x → x < col →
        colOcc img iw x row (min (row + PCG_TILE_PX) (sy + sh)) = false := by
  rcases hf : findFirst
      (fun i => colOcc img iw (sx + (i : Int)) row (min (row + PCG_TILE_PX) (sy + sh)))
      sw.toNat with _ | i
  · simp only [claimCol, hf]
    rw [findFirst_eq_none_iff] at hf
    constructor
    · intro h
      exact absurd h (by simp)
    · rintro ⟨h1, h2, hocc, -⟩
      have h3 := hf (col - sx).toNat (by omega)
      have hx : sx + (((col - sx).toNat : Nat) : Int) = col := by omega
      rw [hx, hocc] at h3
      exact absurd h3 (by simp)
  · simp only [claimCol, hf]
    rw [findFirst_eq_some_iff] at hf
    obtain ⟨hi, hp, hmin⟩ := hf
    rw [Option.some_inj]
    constructor
    · rintro rfl
      refine ⟨by omega, by omega, hp, fun x h1 h2 => ?_⟩
      have h3 := hmin (x - sx).toNat (by omega)
      have hx : sx + (((x - sx).toNat : Nat) : Int) = x := by omega
      rwa [hx] at h3
    · rintro ⟨h1, h2, hocc, hminc⟩
      by_contra hne
      rcases lt_or_gt_of_ne hne with hlt | hgt
      · have h3 := hminc (sx + (i : Int)) (by omega) (by omega)
        rw [hp] at h3
        exact absurd h3 (by simp)
      · have h3 := hmin (col - sx).toNat (by omega)
        have hx : sx + (((col - sx).toNat : Nat) : Int) = col := by omega
        rw [hx, hocc] at h3
        exact absurd h3 (by simp)

theorem claim_eq_some_iff {img : Img} {iw sx sy sw sh col row : Int} :
    claim img iw sx sy sw sh = some (col, row) ↔
      claimRow img iw sx sy sw sh = some row ∧ claimCol img iw sx sy sw sh row = some col := by
  rcases hr : claimRow img iw sx sy sw sh with _ | r
  · simp [claim, hr]
  · rcases hc : claimCol img iw sx sy sw sh r with _ | c
    · simp only [claim, hr, hc]
      constructor
      · intro h
        exact absurd h (by simp)
      · rintro ⟨h1, h2⟩
        rw [Option.some_inj] at h1
        subst h1
        rw [hc] at h2
        exact absurd h2 (by simp)
    · simp only [claim, hr, hc, Option.some_inj, Prod.mk.injEq]
      constructor
      · rintro ⟨rfl, rfl⟩
        exact ⟨rfl, hc⟩
      · rintro ⟨h1, h2⟩
        subst h1
        rw [hc, Option.some_inj] at h2
        exact ⟨h2, rfl⟩

theorem claimCol_isSome_of_claimRow {img : Img} {iw sx sy sw sh row : Int}
    (h : claimRow img iw sx sy sw sh = some row) :
    ∃ col, claimCol img iw sx sy sw sh row = some col := by
  rw [claimRow_eq_some_iff] at h
  obtain ⟨h1, h2, hocc, _⟩ := h
  rw [rowOcc_eq_true_iff] at hocc
  obtain ⟨x, hx1, hx2, hnz⟩ := hocc
  have hsome : (findFirst
      (fun i => colOcc img iw (sx + (i : Int)) row (min (row + PCG_TILE_PX) (sy + sh)))
      sw.toNat).isSome = true := by
    rw [findFirst_isSome_iff]
    refine ⟨(x - sx).toNat, by omega, ?_⟩
    have hx : sx + (((x - sx).toNat : Nat) : Int) = x := by omega
    rw [hx, colOcc_eq_true_iff]
    exact ⟨row, le_refl row, by simp only [PCG_TILE_PX]; omega, hnz⟩
  rw [Option.isSome_iff_exists] at hsome
  obtain ⟨i, hi⟩ := hsome
  exact ⟨sx + (i : Int), by simp only [claimCol]; rw [hi]⟩

theorem claim_eq_none_iff {img : Img} {iw sx sy sw sh : Int} :
    claim img iw sx sy sw sh = none ↔ rectTransparent img iw sx sy sw sh := by
  constructor
  · intro h
    rcases hr : claimRow img iw sx sy sw sh with _ | row
    · rw [claimRow_eq_none_iff] at hr
      intro x y hx1 hx2 hy1 hy2
      have := hr y hy1 hy2
      by_contra hnz
      have : rowOcc img iw sx sw y = true := by
        rw [rowOcc_eq_true_iff]
        exact ⟨x, hx1, hx2, hnz⟩
      simp_all
    · obtain ⟨col, hc⟩ := claimCol_isSome_of_claimRow hr
      have h2 : claim img iw sx sy sw sh = some (col, row) := claim_eq_some_iff.mpr ⟨hr, hc⟩
      rw [h] at h2
      exact absurd h2 (by simp)
  · intro h
    have hr : claimRow img iw sx sy sw sh = none := by
      rw [claimRow_eq_none_iff]
      intro y h1 h2
      rw [← Bool.not_eq_true, rowOcc_eq_true_iff]
      rintro ⟨x, hx1, hx2, hnz⟩
      exact hnz (h x y hx1 hx2 h1 h2)
    simp [claim, hr]

theorem rowOcc_eq_false_iff {img : Img} {iw sx sw y : Int} :
    rowOcc img iw sx sw y = false ↔
      ∀ x, sx ≤ x → x < sx + sw → img (x + y * iw) = 0 := by
  rw [← Bool.not_eq_true, rowOcc_eq_true_iff]
  simp only [not_exists, not_and, ne_eq, not_not]

theorem colOcc_eq_false_iff {img : Img} {iw x row ylim : Int} :
    colOcc img iw x row ylim = false ↔
      ∀ y, row ≤ y → y < ylim → img (x + y * iw) = 0 := by
  rw [← Bool.not_eq_true, colOcc_eq_true_iff]
  simp only [not_exists, not_and, ne_eq, not_not]

/-! ## The occupied-pixel measure -/

theorem nzCount_eq_zero_iff {img : Img} {iw sx sy sw sh : Int} :
    nzCount img iw sx sy sw sh = 0 ↔ rectTransparent img iw sx sy sw sh := by
  simp only [nzCount, Finset.card_eq_zero, Finset.filter_eq_empty_iff, Finset.mem_product,
    Finset.mem_range, not_not, ne_eq]
  constructor
  · intro h x y hx1 hx2 hy1 hy2
    have h2 := h (x := ((x - sx).toNat, (y - sy).toNat)) ⟨by omega, by omega⟩
    dsimp only at h2
    have e1 : (((x - sx).toNat : Nat) : Int) = x - sx := by omega
    have e2 : (((y - sy).toNat : Nat) : Int) = y - sy := by omega
    have haddr : sx + (((x - sx).toNat : Nat) : Int) +
        (sy + (((y - sy).toNat : Nat) : Int)) * iw = x + y * iw := by
      rw [e1, e2]
      ring
    rwa [haddr] at h2
  · intro h p hp
    exact h (sx + (p.1 : Int)) (sy + (p.2 : Int)) (by omega) (by omega) (by omega) (by omega)

theorem nzCount_pos {img : Img} {iw sx sy sw sh x y : Int}
    (hx1 : sx ≤ x) (hx2 : x < sx + sw) (hy1 : sy ≤ y) (hy2 : y < sy + sh)
    (hnz : img (x + y * iw) ≠ 0) : 0 < nzCount img iw sx sy sw sh := by
  rcases Nat.eq_zero_or_pos (nzCount img iw sx sy sw sh) with h | h
  · rw [nzCount_eq_zero_iff] at h
    exact absurd (h x y hx1 hx2 hy1 hy2) hnz
  · exact h

theorem nzCount_le (img : Img) (iw sx sy sw sh : Int) :
    nzCount img iw sx sy sw sh ≤ sw.toNat * sh.toNat := by
  calc nzCount img iw sx sy sw sh
      ≤ (Finset.range sw.toNat ×ˢ Finset.range sh.toNat).card := Finset.card_filter_le _ _
    _ = sw.toNat * sh.toNat := by
        rw [Finset.card_product, Finset.card_range, Finset.card_range]

/-! ## The destructive clear -/

theorem inClip_eq_true_iff {iw cx cy lx ly n : Int} :
    inClip iw cx cy lx ly n = true ↔
      ∃ i : Fin 8, ∃ j : Fin 8, cx + (i : Int) < lx ∧ cy + (j : Int) < ly ∧
        n = cx + (i : Int) + (cy + (j : Int)) * iw := by
  simp [inClip]

theorem clip16_snd_apply (img : Img) (iw cx cy lx ly n : Int) :
    (clip16 img iw cx cy lx ly).2 n =
      if inClip iw cx cy lx ly n = true ∨ inClip iw cx (cy + 8) lx ly n = true ∨
          inClip iw (cx + 8) cy lx ly n = true ∨ inClip iw (cx + 8) (cy + 8) lx ly n = true
      then 0 else img n := by
  simp only [clip16, clipStep, erase_8x8]
  by_cases h1 : inClip iw cx cy lx ly n = true <;>
    by_cases h2 : inClip iw cx (cy + 8) lx ly n = true <;>
      by_cases h3 : inClip iw (cx + 8) cy lx ly n = true <;>
        by_cases h4 : inClip iw (cx + 8) (cy + 8) lx ly n = true <;>
          simp [h1, h2, h3, h4]

/-- Each successful scan, followed by the destructive clip of the hit
block, strictly decreases the number of occupied pixels in the search
rectangle. -/
theorem nzCount_lt_of_claim {img : Img} {iw sx sy sw sh col row : Int}
    (h : claim img iw sx sy sw sh = some (col, row)) :
    nzCount (clip16 img iw col row (sx + sw) (sy + sh)).2 iw sx sy sw sh <
      nzCount img iw sx sy sw sh := by
  rw [claim_eq_some_iff] at h
  obtain ⟨hr, hc⟩ := h
  rw [claimRow_eq_some_iff] at hr
  obtain ⟨hr1, hr2, -, -⟩ := hr
  rw [claimCol_eq_some_iff] at hc
  obtain ⟨hc1, hc2, hocc, -⟩ := hc
  rw [colOcc_eq_true_iff] at hocc
  obtain ⟨y0, hy1, hy2, hnz⟩ := hocc
  rw [lt_min_iff] at hy2
  simp only [PCG_TILE_PX] at hy2
  apply Finset.card_lt_card
  have hsub : ((Finset.range sw.toNat ×ˢ Finset.range sh.toNat).filter
      (fun p => (clip16 img iw col row (sx + sw) (sy + sh)).2
        (sx + (p.1 : Int) + (sy + (p.2 : Int)) * iw) ≠ 0)) ⊆
      ((Finset.range sw.toNat ×ˢ Finset.range sh.toNat).filter
      (fun p => img (sx + (p.1 : Int) + (sy + (p.2 : Int)) * iw) ≠ 0)) := by
    intro p hp
    rw [Finset.mem_filter] at hp ⊢
    refine ⟨hp.1, ?_⟩
    have hne := hp.2
    rw [clip16_snd_apply] at hne
    split_ifs at hne with hcl
    · exact absurd rfl hne
    · exact hne
  rw [Finset.ssubset_iff_of_subset hsub]
  refine ⟨((col - sx).toNat, (y0 - sy).toNat), ?_, ?_⟩
  · rw [Finset.mem_filter]
    have e1 : (((col - sx).toNat : Nat) : Int) = col - sx := by omega
    have e2 : (((y0 - sy).toNat : Nat) : Int) = y0 - sy := by omega
    have haddr : sx + (((col - sx).toNat : Nat) : Int) +
        (sy + (((y0 - sy).toNat : Nat) : Int)) * iw = col + y0 * iw := by
      rw [e1, e2]
      ring
    refine ⟨Finset.mem_product.mpr ⟨Finset.mem_range.mpr (by omega),
      Finset.mem_range.mpr (by omega)⟩, ?_⟩
    rw [haddr]
    exact hnz
  · rw [Finset.mem_filter]
    rintro ⟨-, hbad⟩
    apply hbad
    have e1 : (((col - sx).toNat : Nat) : Int) = col - sx := by omega
    have e2 : (((y0 - sy).toNat : Nat) : Int) = y0 - sy := by omega
    have haddr : sx + (((col - sx).toNat : Nat) : Int) +
        (sy + (((y0 - sy).toNat : Nat) : Int)) * iw = col + y0 * iw := by
      rw [e1, e2]
      ring
    rw [haddr, clip16_snd_apply]
    rcases lt_or_le y0 (row + 8) with hcase | hcase
    · have hin : inClip iw col row (sx + sw) (sy + sh) (col + y0 * iw) = true := by
        rw [inClip_eq_true_iff]
        refine ⟨⟨0, by omega⟩, ⟨(y0 - row).toNat, by omega⟩, ?_, ?_, ?_⟩
        · simpa using hc2
        · have e3 : ((((y0 - row).toNat : Nat) : Int)) = y0 - row := by omega
          simp only [Fin.val_mk]
          rw [e3]
          omega
        · have e3 : ((((y0 - row).toNat : Nat) : Int)) = y0 - row := by omega
          simp only [Fin.val_mk]
          rw [e3]
          ring_nf
      rw [if_pos (Or.inl hin)]
    · have hin : inClip iw col (row + 8) (sx + sw) (sy + sh) (col + y0 * iw) = true := by
        rw [inClip_eq_true_iff]
        refine ⟨⟨0, by omega⟩, ⟨(y0 - row - 8).toNat, by omega⟩, ?_, ?_, ?_⟩
        · simpa using hc2
        · have e3 : ((((y0 - row - 8).toNat : Nat) : Int)) = y0 - row - 8 := by omega
          simp only [Fin.val_mk]
          rw [e3]
          omega
        · have e3 : ((((y0 - row - 8).toNat : Nat) : Int)) = y0 - row - 8 := by omega
          simp only [Fin.val_mk]
          rw [e3]
          ring_nf
      rw [if_pos (Or.inr (Or.inl hin))]

/-! ## Record operations: component behavior -/

@[simp]
theorem record_frm_dat_log (st : RecState) (a b c : Int) (d : Nat) :
    (record_frm_dat st a b c d).log = st.log := by
  rw [record_frm_dat]
  split <;> rfl

@[simp]
theorem record_frm_dat_ref (st : RecState) (a b c : Int) (d : Nat) :
    (record_frm_dat st a b c d).ref = st.ref := by
  rw [record_frm_dat]
  split <;> rfl

@[simp]
theorem record_frm_dat_pcg (st : RecState) (a b c : Int) (d : Nat) :
    (record_frm_dat st a b c d).pcg = st.pcg := by
  rw [record_frm_dat]
  split <;> rfl

@[simp]
theorem record_frm_dat_pal (st : RecState) (a b c : Int) (d : Nat) :
    (record_frm_dat st a b c d).pal = st.pal := by
  rw [record_frm_dat]
  split <;> rfl

@[simp]
theorem record_pcg_dat_log (st : RecState) (t : List Nat) :
    (record_pcg_dat st t).log = st.log := by
  rw [record_pcg_dat]
  split <;> rfl

@[simp]
theorem record_pcg_dat_ref (st : RecState) (t : List Nat) :
    (record_pcg_dat st t).ref = st.ref := by
  rw [record_pcg_dat]
  split <;> rfl

@[simp]
theorem record_pcg_dat_frm (st : RecState) (t : List Nat) :
    (record_pcg_dat st t).frm = st.frm := by
  rw [record_pcg_dat]
  split <;> rfl

@[simp]
theorem record_pcg_dat_pal (st : RecState) (t : List Nat) :
    (record_pcg_dat st t).pal = st.pal := by
  rw [record_pcg_dat]
  split <;> rfl

theorem record_pcg_dat_lt {st : RecState} (t : List Nat)
    (h : st.pcg.length < PCG_PT_MAX_COUNT) :
    (record_pcg_dat st t).pcg = st.pcg ++ [t] := by
  rw [record_pcg_dat, if_neg (by omega)]

theorem record_frm_dat_lt {st : RecState} (a b c : Int) (d : Nat)
    (h : 8 * st.frm.length < PCG_FRM_MAX_COUNT) :
    (record_frm_dat st a b c d).frm =
      st.frm ++ [⟨toInt16 a, toInt16 b, toInt16 c, d % 65536⟩] := by
  rw [record_frm_dat, if_neg (by omega)]

theorem record_frm_dat_ge {st : RecState} (a b c : Int) (d : Nat)
    (h : PCG_FRM_MAX_COUNT ≤ 8 * st.frm.length) :
    record_frm_dat st a b c d = st := by
  rw [record_frm_dat, if_pos h]

@[simp]
theorem record_ref_dat_log (st : RecState) (c o : Nat) :
    (record_ref_dat st c o).log = st.log := by
  rw [record_ref_dat]
  split <;> rfl

@[simp]
theorem record_ref_dat_pcg (st : RecState) (c o : Nat) :
    (record_ref_dat st c o).pcg = st.pcg := by
  rw [record_ref_dat]
  split <;> rfl

@[simp]
theorem record_ref_dat_frm (st : RecState) (c o : Nat) :
    (record_ref_dat st c o).frm = st.frm := by
  rw [record_ref_dat]
  split <;> rfl

@[simp]
theorem record_ref_dat_pal (st : RecState) (c o : Nat) :
    (record_ref_dat st c o).pal = st.pal := by
  rw [record_ref_dat]
  split <;> rfl

theorem record_ref_dat_lt {st : RecState} (c o : Nat)
    (h : st.ref.length < PCG_REF_MAX_COUNT) :
    (record_ref_dat st c o).ref = st.ref ++ [⟨c % 65536, o % 4294967296⟩] := by
  rw [record_ref_dat, if_neg (by omega)]

theorem record_ref_dat_ge {st : RecState} (c o : Nat)
    (h : PCG_REF_MAX_COUNT ≤ st.ref.length) :
    record_ref_dat st c o = st := by
  rw [record_ref_dat, if_pos h]

theorem record_ref_dat_length (st : RecState) (c o : Nat) :
    (record_ref_dat st c o).ref.length = min (st.ref.length + 1) PCG_REF_MAX_COUNT ∨
      (PCG_REF_MAX_COUNT ≤ st.ref.length ∧ (record_ref_dat st c o).ref.length = st.ref.length) := by
  rcases lt_or_le st.ref.length PCG_REF_MAX_COUNT with h | h
  · left
    rw [record_ref_dat_lt c o h, List.length_append]
    simp only [List.length_cons, List.length_nil]
    omega
  · right
    rw [record_ref_dat_ge c o h]
    exact ⟨h, rfl⟩

/-! ## Loop step lemmas -/

theorem chopLoopF_claim_none {iw : Int} {mode : ConvMode} {ox oy sx sy sw sh : Int}
    {fuel : Nat} {img : Img} {st : RecState} {sp : Nat} {lx ly : Int}
    (h : claim img iw sx sy sw sh = none) :
    chopLoopF iw mode ox oy sx sy sw sh fuel img st sp lx ly =
      ⟨img, st, sp, LoopExit.done, []⟩ := by
  cases fuel <;> (rw [chopLoopF, h])

theorem chopLoopF_zero_some {iw : Int} {mode : ConvMode} {ox oy sx sy sw sh : Int}
    {img : Img} {st : RecState} {sp : Nat} {lx ly : Int} {hit : Int × Int}
    (h : claim img iw sx sy sw sh = some hit) :
    chopLoopF iw mode ox oy sx sy sw sh 0 img st sp lx ly =
      ⟨img, st, sp, LoopExit.fuelOut, []⟩ := by
  rw [chopLoopF, h]

theorem chopLoopF_succ_found {iw ox oy sx sy sw sh : Int} {f : Nat} {img : Img}
    {st : RecState} {sp : Nat} {lx ly : Int} {cx cy : Int} {i : Nat}
    (h : claim img iw sx sy sw sh = some (cx, cy))
    (hf : record_find_pcg_dat st.pcg (clip16 img iw cx cy (sx + sw) (sy + sh)).1 = some i) :
    chopLoopF iw ConvMode.XOBJ ox oy sx sy sw sh (f + 1) img st sp lx ly =
      (let tile := (clip16 img iw cx cy (sx + sw) (sy + sh)).1
       let img' := (clip16 img iw cx cy (sx + sw) (sy + sh)).2
       let vx := Int.tmod cx sw - ox
       let vy := Int.tmod cy sh - oy
       let r := chopLoopF iw ConvMode.XOBJ ox oy sx sy sw sh f img'
         (record_frm_dat st (vx - lx) (vy - ly) (i : Int) 0) ((sp + 1) % 65536) vx vy
       ⟨r.img, r.st, r.spCount, r.exit, ⟨cx, cy, tile, some i⟩ :: r.trace⟩) := by
  rw [chopLoopF, h]
  dsimp only
  rw [hf, if_pos (rfl : ConvMode.XOBJ = ConvMode.XOBJ)]

theorem chopLoopF_succ_full {iw : Int} {mode : ConvMode} {ox oy sx sy sw sh : Int} {f : Nat}
    {img : Img} {st : RecState} {sp : Nat} {lx ly : Int} {cx cy : Int}
    (h : claim img iw sx sy sw sh = some (cx, cy))
    (hfind : (if mode = ConvMode.XOBJ then
        record_find_pcg_dat st.pcg (clip16 img iw cx cy (sx + sw) (sy + sh)).1
      else none) = none)
    (hcap : PCG_PT_MAX_COUNT ≤ st.pcg.length) :
    chopLoopF iw mode ox oy sx sy sw sh (f + 1) img st sp lx ly =
      ⟨(clip16 img iw cx cy (sx + sw) (sy + sh)).2,
        { st with log := st.log ++ [Diag.pcgFull] }, (sp + 1) % 65536, LoopExit.pcgFull,
        [⟨cx, cy, (clip16 img iw cx cy (sx + sw) (sy + sh)).1, none⟩]⟩ := by
  rw [chopLoopF, h]
  dsimp only
  rw [hfind]
  dsimp only
  rw [if_pos hcap]

theorem chopLoopF_succ_miss {iw ox oy sx sy sw sh : Int} {f : Nat} {img : Img}
    {st : RecState} {sp : Nat} {lx ly : Int} {cx cy : Int}
    (h : claim img iw sx sy sw sh = some (cx, cy))
    (hfind : record_find_pcg_dat st.pcg (clip16 img iw cx cy (sx + sw) (sy + sh)).1 = none)
    (hcap : st.pcg.length < PCG_PT_MAX_COUNT) :
    chopLoopF iw ConvMode.XOBJ ox oy sx sy sw sh (f + 1) img st sp lx ly =
      (let tile := (clip16 img iw cx cy (sx + sw) (sy + sh)).1
       let img' := (clip16 img iw cx cy (sx + sw) (sy + sh)).2
       let vx := Int.tmod cx sw - ox
       let vy := Int.tmod cy sh - oy
       let r := chopLoopF iw ConvMode.XOBJ ox oy sx sy sw sh f img'
         (record_frm_dat (record_pcg_dat st tile) (vx - lx) (vy - ly) (st.pcg.length : Int) 0)
         ((sp + 1) % 65536) vx vy
       ⟨r.img, r.st, r.spCount, r.exit, ⟨cx, cy, tile, some st.pcg.length⟩ :: r.trace⟩) := by
  rw [chopLoopF, h]
  dsimp only
  rw [hfind, if_pos (rfl : ConvMode.XOBJ = ConvMode.XOBJ)]
  dsimp only
  rw [if_neg (by omega : ¬PCG_PT_MAX_COUNT ≤ st.pcg.length)]

theorem chopLoopF_succ_sp {iw ox oy sx sy sw sh : Int} {f : Nat} {img : Img}
    {st : RecState} {sp : Nat} {lx ly : Int} {cx cy : Int}
    (h : claim img iw sx sy sw sh = some (cx, cy))
    (hcap : st.pcg.length < PCG_PT_MAX_COUNT) :
    chopLoopF iw ConvMode.SP ox oy sx sy sw sh (f + 1) img st sp lx ly =
      (let tile := (clip16 img iw cx cy (sx + sw) (sy + sh)).1
       let img' := (clip16 img iw cx cy (sx + sw) (sy + sh)).2
       let r := chopLoopF iw ConvMode.SP ox oy sx sy sw sh f img'
         (record_pcg_dat st tile) ((sp + 1) % 65536) lx ly
       ⟨r.img, r.st, r.spCount, r.exit, ⟨cx, cy, tile, some st.pcg.length⟩ :: r.trace⟩) := by
  rw [chopLoopF, h]
  dsimp only
  rw [if_neg (show ¬ConvMode.SP = ConvMode.XOBJ by simp)]
  dsimp only
  rw [if_neg (by omega : ¬PCG_PT_MAX_COUNT ≤ st.pcg.length)]

theorem nzCount_pos_of_claim {img : Img} {iw sx sy sw sh col row : Int}
    (h : claim img iw sx sy sw sh = some (col, row)) :
    0 < nzCount img iw sx sy sw sh := by
  rw [claim_eq_some_iff] at h
  obtain ⟨hr, hc⟩ := h
  rw [claimRow_eq_some_iff] at hr
  obtain ⟨hr1, hr2, -, -⟩ := hr
  rw [claimCol_eq_some_iff] at hc
  obtain ⟨hc1, hc2, hocc, -⟩ := hc
  rw [colOcc_eq_true_iff] at hocc
  obtain ⟨y0, hy1, hy2, hnz⟩ := hocc
  rw [lt_min_iff] at hy2
  exact nzCount_pos hc1 hc2 (by omega) (by omega) hnz

/-- Components of the recording state across one whole run of the
extraction loop: REF and PAL are untouched, the log gains exactly one
diagnostic on a pattern-table-full abort and nothing otherwise, and
PCG and FRM only grow by appending. -/
theorem chopLoopF_state (iw : Int) (mode : ConvMode) (ox oy sx sy sw sh : Int) :
    ∀ (fuel : Nat) (img : Img) (st : RecState) (sp : Nat) (lx ly : Int),
      (chopLoopF iw mode ox oy sx sy sw sh fuel img st sp lx ly).st.ref = st.ref ∧
      (chopLoopF iw mode ox oy sx sy sw sh fuel img st sp lx ly).st.pal = st.pal ∧
      (chopLoopF iw mode ox oy sx sy sw sh fuel img st sp lx ly).st.log =
        st.log ++ (if (chopLoopF iw mode ox oy sx sy sw sh fuel img st sp lx ly).exit =
          LoopExit.pcgFull then [Diag.pcgFull] else []) ∧
      (∃ l, (chopLoopF iw mode ox oy sx sy sw sh fuel img st sp lx ly).st.pcg = st.pcg ++ l) ∧
      (∃ l, (chopLoopF iw mode ox oy sx sy sw sh fuel img st sp lx ly).st.frm = st.frm ++ l) := by
  intro fuel
  induction fuel with
  | zero =>
    intro img st sp lx ly
    rcases hcl : claim img iw sx sy sw sh with _ | hit
    · rw [chopLoopF_claim_none hcl]
      exact ⟨rfl, rfl, by simp, ⟨[], by simp⟩, ⟨[], by simp⟩⟩
    · rw [chopLoopF_zero_some hcl]
      exact ⟨rfl, rfl, by simp, ⟨[], by simp⟩, ⟨[], by simp⟩⟩
  | succ f ih =>
    intro img st sp lx ly
    rcases hcl : claim img iw sx sy sw sh with _ | ⟨cx, cy⟩
    · rw [chopLoopF_claim_none hcl]
      exact ⟨rfl, rfl, by simp, ⟨[], by simp⟩, ⟨[], by simp⟩⟩
    · rcases hfind : (if mode = ConvMode.XOBJ then
          record_find_pcg_dat st.pcg (clip16 img iw cx cy (sx + sw) (sy + sh)).1
        else none) with _ | i
      · by_cases hcap : PCG_PT_MAX_COUNT ≤ st.pcg.length
        · rw [chopLoopF_succ_full hcl hfind hcap]
          exact ⟨rfl, rfl, by simp, ⟨[], by simp⟩, ⟨[], by simp⟩⟩
        · cases mode with
          | SP =>
            rw [chopLoopF_succ_sp hcl (by omega)]
            dsimp only
            obtain ⟨i1, i2, i3, ⟨l4, i4⟩, ⟨l5, i5⟩⟩ := ih
              (clip16 img iw cx cy (sx + sw) (sy + sh)).2
              (record_pcg_dat st (clip16 img iw cx cy (sx + sw) (sy + sh)).1)
              ((sp + 1) % 65536) lx ly
            refine ⟨by rw [i1]; simp, by rw [i2]; simp, by rw [i3]; simp, ?_, ?_⟩
            · refine ⟨(clip16 img iw cx cy (sx + sw) (sy + sh)).1 :: l4, ?_⟩
              rw [i4, record_pcg_dat_lt _ (by omega)]
              simp
            · exact ⟨l5, by rw [i5]; simp⟩
          | XOBJ =>
            have hfind' : record_find_pcg_dat st.pcg
                (clip16 img iw cx cy (sx + sw) (sy + sh)).1 = none := by
              simpa using hfind
            rw [chopLoopF_succ_miss hcl hfind' (by omega)]
            dsimp only
            obtain ⟨i1, i2, i3, ⟨l4, i4⟩, ⟨l5, i5⟩⟩ := ih
              (clip16 img iw cx cy (sx + sw) (sy + sh)).2
              (record_frm_dat (record_pcg_dat st (clip16 img iw cx cy (sx + sw) (sy + sh)).1)
                (Int.tmod cx sw - ox - lx) (Int.tmod cy sh - oy - ly) (st.pcg.length : Int) 0)
              ((sp + 1) % 65536) (Int.tmod cx sw - ox) (Int.tmod cy sh - oy)
            refine ⟨by rw [i1]; simp, by rw [i2]; simp, by rw [i3]; simp, ?_, ?_⟩
            · refine ⟨(clip16 img iw cx cy (sx + sw) (sy + sh)).1 :: l4, ?_⟩
              rw [i4]
              simp only [record_frm_dat_pcg]
              rw [record_pcg_dat_lt _ (by omega)]
              simp
            · rcases le_or_lt PCG_FRM_MAX_COUNT (8 * st.frm.length) with hfcap | hfcap
              · refine ⟨l5, ?_⟩
                rw [i5, record_frm_dat_ge _ _ _ _ (by simpa using hfcap)]
                simp
              · refine ⟨⟨toInt16 (Int.tmod cx sw - ox - lx), toInt16 (Int.tmod cy sh - oy - ly),
                  toInt16 (st.pcg.length : Int), 0 % 65536⟩ :: l5, ?_⟩
                rw [i5, record_frm_dat_lt _ _ _ _ (by simpa using hfcap)]
                simp
      · cases mode with
        | SP => simp at hfind
        | XOBJ =>
          have hf' : record_find_pcg_dat st.pcg
              (clip16 img iw cx cy (sx + sw) (sy + sh)).1 = some i := by
            simpa using hfind
          rw [chopLoopF_succ_found hcl hf']
          dsimp only
          obtain ⟨i1, i2, i3, ⟨l4, i4⟩, ⟨l5, i5⟩⟩ := ih
            (clip16 img iw cx cy (sx + sw) (sy + sh)).2
            (record_frm_dat st (Int.tmod cx sw - ox - lx) (Int.tmod cy sh - oy - ly) (i : Int) 0)
            ((sp + 1) % 65536) (Int.tmod cx sw - ox) (Int.tmod cy sh - oy)
          refine ⟨by rw [i1]; simp, by rw [i2]; simp, by rw [i3]; simp, ?_, ?_⟩
          · exact ⟨l4, by rw [i4]; simp⟩
          · rcases le_or_lt PCG_FRM_MAX_COUNT (8 * st.frm.length) with hfcap | hfcap
            · refine ⟨l5, ?_⟩
              rw [i5, record_frm_dat_ge _ _ _ _ (by simpa using hfcap)]
            · refine ⟨⟨toInt16 (Int.tmod cx sw - ox - lx), toInt16 (Int.tmod cy sh - oy - ly),
                toInt16 (i : Int), 0 % 65536⟩ :: l5, ?_⟩
              rw [i5, record_frm_dat_lt _ _ _ _ (by simpa using hfcap)]
              simp

/-- With fuel at least the occupied-pixel count, the loop never runs
out of fuel: the C while-loop terminates on every input. -/
theorem chopLoopF_no_fuelOut (iw : Int) (mode : ConvMode) (ox oy sx sy sw sh : Int) :
    ∀ (fuel : Nat) (img : Img) (st : RecState) (sp : Nat) (lx ly : Int),
      nzCount img iw sx sy sw sh ≤ fuel →
      (chopLoopF iw mode ox oy sx sy sw sh fuel img st sp lx ly).exit ≠ LoopExit.fuelOut := by
  intro fuel
  induction fuel with
  | zero =>
    intro img st sp lx ly hle
    rcases hcl : claim img iw sx sy sw sh with _ | ⟨cx, cy⟩
    · rw [chopLoopF_claim_none hcl]
      simp
    · have := nzCount_pos_of_claim hcl
      omega
  | succ f ih =>
    intro img st sp lx ly hle
    rcases hcl : claim img iw sx sy sw sh with _ | ⟨cx, cy⟩
    · rw [chopLoopF_claim_none hcl]
      simp
    · have hdec := nzCount_lt_of_claim hcl
      have hle' : nzCount (clip16 img iw cx cy (sx + sw) (sy + sh)).2 iw sx sy sw sh ≤ f := by
        omega
      rcases hfind : (if mode = ConvMode.XOBJ then
          record_find_pcg_dat st.pcg (clip16 img iw cx cy (sx + sw) (sy + sh)).1
        else none) with _ | i
      · by_cases hcap : PCG_PT_MAX_COUNT ≤ st.pcg.length
        · rw [chopLoopF_succ_full hcl hfind hcap]
          simp
        · cases mode with
          | SP =>
            rw [chopLoopF_succ_sp hcl (by omega)]
            dsimp only
            exact ih _ _ _ _ _ hle'
          | XOBJ =>
            have hfind' : record_find_pcg_dat st.pcg
                (clip16 img iw cx cy (sx + sw) (sy + sh)).1 = none := by
              simpa using hfind
            rw [chopLoopF_succ_miss hcl hfind' (by omega)]
            dsimp only
            exact ih _ _ _ _ _ hle'
      · cases mode with
        | SP => simp at hfind
        | XOBJ =>
          have hf' : record_find_pcg_dat st.pcg
              (clip16 img iw cx cy (sx + sw) (sy + sh)).1 = some i := by
            simpa using hfind
          rw [chopLoopF_succ_found hcl hf']
          dsimp only
          exact ih _ _ _ _ _ hle'

/-- When the loop ends normally, it is because the scanner reported
no occupied region in the final buffer. -/
theorem chopLoopF_done_claim (iw : Int) (mode : ConvMode) (ox oy sx sy sw sh : Int) :
    ∀ (fuel : Nat) (img : Img) (st : RecState) (sp : Nat) (lx ly : Int),
      (chopLoopF iw mode ox oy sx sy sw sh fuel img st sp lx ly).exit = LoopExit.done →
      claim (chopLoopF iw mode ox oy sx sy sw sh fuel img st sp lx ly).img iw sx sy sw sh =
        none := by
  intro fuel
  induction fuel with
  | zero =>
    intro img st sp lx ly hdone
    rcases hcl : claim img iw sx sy sw sh with _ | ⟨cx, cy⟩
    · rw [chopLoopF_claim_none hcl]
      exact hcl
    · rw [chopLoopF_zero_some hcl] at hdone
      exact absurd hdone (by simp)
  | succ f ih =>
    intro img st sp lx ly hdone
    rcases hcl : claim img iw sx sy sw sh with _ | ⟨cx, cy⟩
    · rw [chopLoopF_claim_none hcl]
      exact hcl
    · rcases hfind : (if mode = ConvMode.XOBJ then
          record_find_pcg_dat st.pcg (clip16 img iw cx cy (sx + sw) (sy + sh)).1
        else none) with _ | i
      · by_cases hcap : PCG_PT_MAX_COUNT ≤ st.pcg.length
        · rw [chopLoopF_succ_full hcl hfind hcap] at hdone
          exact absurd hdone (by simp)
        · cases mode with
          | SP =>
            rw [chopLoopF_succ_sp hcl (by omega)] at hdone ⊢
            dsimp only at hdone ⊢
            exact ih _ _ _ _ _ hdone
          | XOBJ =>
            have hfind' : record_find_pcg_dat st.pcg
                (clip16 img iw cx cy (sx + sw) (sy + sh)).1 = none := by
              simpa using hfind
            rw [chopLoopF_succ_miss hcl hfind' (by omega)] at hdone ⊢
            dsimp only at hdone ⊢
            exact ih _ _ _ _ _ hdone
      · cases mode with
        | SP => simp at hfind
        | XOBJ =>
          have hf' : record_find_pcg_dat st.pcg
              (clip16 img iw cx cy (sx + sw) (sy + sh)).1 = some i := by
            simpa using hfind
          rw [chopLoopF_succ_found hcl hf'] at hdone ⊢
          dsimp only at hdone ⊢
          exact ih _ _ _ _ _ hdone

/-! ## chop_sprite structure -/

theorem tdiv_tile_half : Int.tdiv PCG_TILE_PX 2 = 8 := rfl

/-- `chop_sprite` in terms of the loop result: the half-tile origin
shift applied, and a REF entry committed only on a normal XOBJ exit. -/
theorem chop_sprite_eq (img : Img) (iw : Int) (mode : ConvMode) (ox oy sx sy sw sh : Int)
    (st : RecState) :
    chop_sprite img iw mode ox oy sx sy sw sh st =
      (let r := chopLoopF iw mode (ox - 8) (oy - 8) sx sy sw sh (sw.toNat * sh.toNat) img st 0 0 0
       match r.exit with
       | LoopExit.done =>
         match mode with
         | ConvMode.XOBJ =>
           ⟨r.img, record_ref_dat r.st r.spCount (8 * st.frm.length), r.exit, r.trace⟩
         | ConvMode.SP => ⟨r.img, r.st, r.exit, r.trace⟩
       | _ => ⟨r.img, r.st, r.exit, r.trace⟩) := by
  simp only [chop_sprite, record_get_frm_offs, tdiv_tile_half]

theorem chop_sprite_exit (img : Img) (iw : Int) (mode : ConvMode) (ox oy sx sy sw sh : Int)
    (st : RecState) :
    (chop_sprite img iw mode ox oy sx sy sw sh st).exit =
      (chopLoopF iw mode (ox - 8) (oy - 8) sx sy sw sh (sw.toNat * sh.toNat) img st 0 0 0).exit := by
  rw [chop_sprite_eq]
  dsimp only
  rcases hx : (chopLoopF iw mode (ox - 8) (oy - 8) sx sy sw sh
      (sw.toNat * sh.toNat) img st 0 0 0).exit with _ | _ | _
  · cases mode <;> rfl
  · rfl
  · rfl

/-- The per-frame loop of `chop_sprite` always terminates before the
pixel-count fuel bound runs out. -/
theorem chop_sprite_no_fuelOut (img : Img) (iw : Int) (mode : ConvMode)
    (ox oy sx sy sw sh : Int) (st : RecState) :
    (chop_sprite img iw mode ox oy sx sy sw sh st).exit ≠ LoopExit.fuelOut := by
  rw [chop_sprite_exit]
  exact chopLoopF_no_fuelOut iw mode (ox - 8) (oy - 8) sx sy sw sh _ img st 0 0 0
    (nzCount_le img iw sx sy sw sh)

/-! ## Behavior on an all-transparent buffer -/

theorem claim_zero (iw sx sy sw sh : Int) : claim (fun _ => 0) iw sx sy sw sh = none :=
  claim_eq_none_iff.mpr (fun _ _ _ _ _ _ => rfl)

theorem chop_sprite_zero_xobj (iw ox oy sx sy sw sh : Int) (st : RecState) :
    chop_sprite (fun _ => 0) iw ConvMode.XOBJ ox oy sx sy sw sh st =
      ⟨(fun _ => 0), record_ref_dat st 0 (8 * st.frm.length), LoopExit.done, []⟩ := by
  rw [chop_sprite_eq]
  rw [chopLoopF_claim_none (claim_zero iw sx sy sw sh)]

theorem processFrames_zero_xobj (iw ox oy fw fh : Int) :
    ∀ (L : List (Nat × Nat)) (st : RecState), st.ref.length ≤ PCG_REF_MAX_COUNT →
      (processFrames iw ConvMode.XOBJ ox oy fw fh L (fun _ => 0) st).img = (fun _ => 0) ∧
      (processFrames iw ConvMode.XOBJ ox oy fw fh L (fun _ => 0) st).trace = [] ∧
      (processFrames iw ConvMode.XOBJ ox oy fw fh L (fun _ => 0) st).st.ref.length =
        min (st.ref.length + L.length) PCG_REF_MAX_COUNT ∧
      (processFrames iw ConvMode.XOBJ ox oy fw fh L (fun _ => 0) st).st.log = st.log ∧
      (processFrames iw ConvMode.XOBJ ox oy fw fh L (fun _ => 0) st).st.pcg = st.pcg ∧
      (processFrames iw ConvMode.XOBJ ox oy fw fh L (fun _ => 0) st).st.frm = st.frm := by
  intro L
  induction L with
  | nil =>
    intro st hle
    have hst : (processFrames iw ConvMode.XOBJ ox oy fw fh [] (fun _ => 0) st).st = st := rfl
    refine ⟨rfl, rfl, ?_, rfl, rfl, rfl⟩
    rw [hst]
    simp only [List.length_nil]
    omega
  | cons hd rest ih =>
    intro st hle
    rcases hd with ⟨y, x⟩
    have hstep : processFrames iw ConvMode.XOBJ ox oy fw fh ((y, x) :: rest) (fun _ => 0) st =
        ⟨(processFrames iw ConvMode.XOBJ ox oy fw fh rest (fun _ => 0)
            (record_ref_dat st 0 (8 * st.frm.length))).img,
         (processFrames iw ConvMode.XOBJ ox oy fw fh rest (fun _ => 0)
            (record_ref_dat st 0 (8 * st.frm.length))).st,
         (processFrames iw ConvMode.XOBJ ox oy fw fh rest (fun _ => 0)
            (record_ref_dat st 0 (8 * st.frm.length))).trace⟩ := by
      simp only [processFrames, chop_sprite_zero_xobj, List.nil_append]
    rw [hstep]
    have hlen : (record_ref_dat st 0 (8 * st.frm.length)).ref.length =
        min (st.ref.length + 1) PCG_REF_MAX_COUNT := by
      rcases lt_or_le st.ref.length PCG_REF_MAX_COUNT with hc | hc
      · rw [record_ref_dat_lt _ _ hc]
        simp only [List.length_append, List.length_cons, List.length_nil]
        omega
      · rw [record_ref_dat_ge _ _ hc]
        omega
    obtain ⟨j1, j2, j3, j4, j5, j6⟩ := ih (record_ref_dat st 0 (8 * st.frm.length)) (by omega)
    refine ⟨j1, j2, ?_, by rw [j4]; simp, by rw [j5]; simp, by rw [j6]; simp⟩
    rw [j3, hlen]
    simp only [List.length_cons]
    omega

theorem frameList_length (rows cols : Nat) : (frameList rows cols).length = rows * cols := by
  induction rows with
  | zero =>
    simp [frameList]
  | succ r ih =>
    rw [frameList, List.range_succ, List.flatMap_append] at *
    simp only [List.length_append, List.flatMap_cons, List.flatMap_nil, List.append_nil,
      List.length_map] at *
    rw [ih, List.length_range]
    ring

/-- The diagnostics log across one frame: unchanged unless the
pattern table filled up, in which case exactly one diagnostic is
appended. -/
theorem chop_sprite_log (img : Img) (iw : Int) (mode : ConvMode) (ox oy sx sy sw sh : Int)
    (st : RecState) :
    (chop_sprite img iw mode ox oy sx sy sw sh st).st.log =
      st.log ++ (if (chop_sprite img iw mode ox oy sx sy sw sh st).exit = LoopExit.pcgFull
        then [Diag.pcgFull] else []) := by
  have hlog := (chopLoopF_state iw mode (ox - 8) (oy - 8) sx sy sw sh
    (sw.toNat * sh.toNat) img st 0 0 0).2.2.1
  rw [chop_sprite_exit, chop_sprite_eq]
  dsimp only
  rcases hx : (chopLoopF iw mode (ox - 8) (oy - 8) sx sy sw sh
      (sw.toNat * sh.toNat) img st 0 0 0).exit with _ | _ | _
  · rw [hx] at hlog
    cases mode
    · dsimp only
      rw [record_ref_dat_log, hlog]
    · dsimp only
      rw [hlog]
  · rw [hx] at hlog
    dsimp only
    rw [hlog]
  · rw [hx] at hlog
    dsimp only
    rw [hlog]

theorem chop_sprite_ref_sp (img : Img) (iw ox oy sx sy sw sh : Int) (st : RecState) :
    (chop_sprite img iw ConvMode.SP ox oy sx sy sw sh st).st.ref = st.ref := by
  have href := (chopLoopF_state iw ConvMode.SP (ox - 8) (oy - 8) sx sy sw sh
    (sw.toNat * sh.toNat) img st 0 0 0).1
  rw [chop_sprite_eq]
  dsimp only
  rcases hx : (chopLoopF iw ConvMode.SP (ox - 8) (oy - 8) sx sy sw sh
      (sw.toNat * sh.toNat) img st 0 0 0).exit with _ | _ | _ <;> exact href

theorem chop_sprite_ref_not_done (img : Img) (iw : Int) (mode : ConvMode)
    (ox oy sx sy sw sh : Int) (st : RecState)
    (h : (chop_sprite img iw mode ox oy sx sy sw sh st).exit ≠ LoopExit.done) :
    (chop_sprite img iw mode ox oy sx sy sw sh st).st.ref = st.ref := by
  have href := (chopLoopF_state iw mode (ox - 8) (oy - 8) sx sy sw sh
    (sw.toNat * sh.toNat) img st 0 0 0).1
  rw [chop_sprite_exit] at h
  rw [chop_sprite_eq]
  dsimp only
  rcases hx : (chopLoopF iw mode (ox - 8) (oy - 8) sx sy sw sh
      (sw.toNat * sh.toNat) img st 0 0 0).exit with _ | _ | _
  · exact absurd hx h
  · exact href
  · exact href

theorem chop_sprite_ref_done_xobj (img : Img) (iw ox oy sx sy sw sh : Int) (st : RecState)
    (h : (chop_sprite img iw ConvMode.XOBJ ox oy sx sy sw sh st).exit = LoopExit.done) :
    (chop_sprite img iw ConvMode.XOBJ ox oy sx sy sw sh st).st.ref.length =
      (if st.ref.length < PCG_REF_MAX_COUNT then st.ref.length + 1 else st.ref.length) := by
  have href := (chopLoopF_state iw ConvMode.XOBJ (ox - 8) (oy - 8) sx sy sw sh
    (sw.toNat * sh.toNat) img st 0 0 0).1
  rw [chop_sprite_exit] at h
  rw [chop_sprite_eq]
  dsimp only
  rcases hx : (chopLoopF iw ConvMode.XOBJ (ox - 8) (oy - 8) sx sy sw sh
      (sw.toNat * sh.toNat) img st 0 0 0).exit with _ | _ | _
  · dsimp only
    rcases lt_or_le st.ref.length PCG_REF_MAX_COUNT with hc | hc
    · rw [if_pos hc]
      rw [record_ref_dat, if_neg (by rw [href]; omega), href]
      simp
    · rw [if_neg (by omega)]
      rw [record_ref_dat, if_pos (by rw [href]; omega), href]
  · rw [hx] at h
    exact absurd h (by simp)
  · rw [hx] at h
    exact absurd h (by simp)

/-- The log only grows across a run of frames. -/
theorem processFrames_log_mono (iw : Int) (mode : ConvMode) (ox oy fw fh : Int) :
    ∀ (L : List (Nat × Nat)) (img : Img) (st : RecState),
      ∃ l, (processFrames iw mode ox oy fw fh L img st).st.log = st.log ++ l := by
  intro L
  induction L with
  | nil =>
    intro img st
    exact ⟨[], by simp [processFrames]⟩
  | cons hd rest ih =>
    intro img st
    rcases hd with ⟨y, x⟩
    obtain ⟨l2, h2⟩ := ih (chop_sprite img iw mode ox oy ((x : Int) * fw) ((y : Int) * fh)
        fw fh st).img (chop_sprite img iw mode ox oy ((x : Int) * fw) ((y : Int) * fh)
        fw fh st).st
    refine ⟨(if (chop_sprite img iw mode ox oy ((x : Int) * fw) ((y : Int) * fh)
        fw fh st).exit = LoopExit.pcgFull then [Diag.pcgFull] else []) ++ l2, ?_⟩
    show (processFrames iw mode ox oy fw fh rest _ _).st.log = _
    rw [h2, chop_sprite_log]
    simp

/-- As long as the reference table has room and no frame aborts on a
full pattern table, every XOBJ frame contributes exactly one REF
entry. -/
theorem processFrames_ref_length (iw ox oy fw fh : Int) :
    ∀ (L : List (Nat × Nat)) (img : Img) (st : RecState),
      st.ref.length + L.length ≤ PCG_REF_MAX_COUNT →
      (processFrames iw ConvMode.XOBJ ox oy fw fh L img st).st.log = st.log →
      (processFrames iw ConvMode.XOBJ ox oy fw fh L img st).st.ref.length =
        st.ref.length + L.length := by
  intro L
  induction L with
  | nil =>
    intro img st hcap hlog
    simp [processFrames]
  | cons hd rest ih =>
    intro img st hcap hlog
    rcases hd with ⟨y, x⟩
    have hstep : processFrames iw ConvMode.XOBJ ox oy fw fh ((y, x) :: rest) img st =
        ⟨(processFrames iw ConvMode.XOBJ ox oy fw fh rest
            (chop_sprite img iw ConvMode.XOBJ ox oy ((x : Int) * fw) ((y : Int) * fh)
              fw fh st).img
            (chop_sprite img iw ConvMode.XOBJ ox oy ((x : Int) * fw) ((y : Int) * fh)
              fw fh st).st).img,
         (processFrames iw ConvMode.XOBJ ox oy fw fh rest _ _).st,
         (chop_sprite img iw ConvMode.XOBJ ox oy ((x : Int) * fw) ((y : Int) * fh)
            fw fh st).trace ++ (processFrames iw ConvMode.XOBJ ox oy fw fh rest _ _).trace⟩ :=
      rfl
    rw [hstep] at hlog ⊢
    dsimp only at hlog ⊢
    obtain ⟨l2, h2⟩ := processFrames_log_mono iw ConvMode.XOBJ ox oy fw fh rest
      (chop_sprite img iw ConvMode.XOBJ ox oy ((x : Int) * fw) ((y : Int) * fh) fw fh st).img
      (chop_sprite img iw ConvMode.XOBJ ox oy ((x : Int) * fw) ((y : Int) * fh) fw fh st).st
    rw [h2, chop_sprite_log] at hlog
    have hnil : (if (chop_sprite img iw ConvMode.XOBJ ox oy ((x : Int) * fw) ((y : Int) * fh)
        fw fh st).exit = LoopExit.pcgFull then [Diag.pcgFull] else []) = [] ∧ l2 = [] := by
      rcases hdiag : (if (chop_sprite img iw ConvMode.XOBJ ox oy ((x : Int) * fw)
          ((y : Int) * fh) fw fh st).exit = LoopExit.pcgFull then [Diag.pcgFull] else [])
        with _ | ⟨d, ds⟩
      · refine ⟨rfl, ?_⟩
        rw [hdiag] at hlog
        have hlen := congrArg List.length hlog
        rw [List.length_append, List.length_append, List.length_nil] at hlen
        exact List.length_eq_zero.mp (by omega)
      · exfalso
        rw [hdiag] at hlog
        have hlen := congrArg List.length hlog
        rw [List.length_append, List.length_append, List.length_cons] at hlen
        omega
    have hexit : (chop_sprite img iw ConvMode.XOBJ ox oy ((x : Int) * fw) ((y : Int) * fh)
        fw fh st).exit = LoopExit.done := by
      rcases hx : (chop_sprite img iw ConvMode.XOBJ ox oy ((x : Int) * fw) ((y : Int) * fh)
          fw fh st).exit with _ | _ | _
      · rfl
      · rw [hx] at hnil
        simp at hnil
      · exact absurd hx (chop_sprite_no_fuelOut _ _ _ _ _ _ _ _ _ _)
    have hreflen := chop_sprite_ref_done_xobj img iw ox oy ((x : Int) * fw) ((y : Int) * fh)
      fw fh st hexit
    rw [if_pos (by simp at hcap; omega)] at hreflen
    have hlog2 : (processFrames iw ConvMode.XOBJ ox oy fw fh rest
        (chop_sprite img iw ConvMode.XOBJ ox oy ((x : Int) * fw) ((y : Int) * fh)
          fw fh st).img
        (chop_sprite img iw ConvMode.XOBJ ox oy ((x : Int) * fw) ((y : Int) * fh)
          fw fh st).st).st.log =
        (chop_sprite img iw ConvMode.XOBJ ox oy ((x : Int) * fw) ((y : Int) * fh)
          fw fh st).st.log := by
      rw [h2, chop_sprite_log, hnil.1, hnil.2]
      simp
    have := ih (chop_sprite img iw ConvMode.XOBJ ox oy ((x : Int) * fw) ((y : Int) * fh)
        fw fh st).img
      (chop_sprite img iw ConvMode.XOBJ ox oy ((x : Int) * fw) ((y : Int) * fh) fw fh st).st
      (by rw [hreflen]; simp at hcap ⊢; omega) hlog2
    rw [this, hreflen]
    simp only [List.length_cons]
    omega

/-! ## Claim C1 -/

/-- C1 (counterexample): an all-transparent sheet of 4097 frames (a
69649x1 image cut into 17x1 XOBJ frames) produces only 4096
ReferenceEntry records, not one per frame: the reference table
capacity silently truncates the 4097th entry. -/
theorem c1_counterexample :
    (convert (fun _ => 0) 69649 1 17 1 (-1) (-1)).st.ref.length = 4096 ∧
    (Int.tdiv 1 1).toNat * (Int.tdiv 69649 17).toNat = 4097 ∧
    (convert (fun _ => 0) 69649 1 17 1 (-1) (-1)).st.ref.length ≠
      (Int.tdiv 1 1).toNat * (Int.tdiv 69649 17).toNat := by
  have hconv : convert (fun _ => 0) 69649 1 17 1 (-1) (-1) =
      processFrames 69649 ConvMode.XOBJ 8 0 17 1 (frameList 1 4097) (fun _ => 0) record_init :=
    rfl
  have h := (processFrames_zero_xobj 69649 8 0 17 1 (frameList 1 4097) record_init
    (by simp [record_init])).2.2.1
  rw [frameList_length] at h
  have hlen : (convert (fun _ => 0) 69649 1 17 1 (-1) (-1)).st.ref.length = 4096 := by
    rw [hconv, h]
    decide
  refine ⟨hlen, by decide, ?_⟩
  rw [hlen]
  decide

/-- C1 (amended): in composite (XOBJ) mode, provided the sheet has no
more than PCG_REF_MAX_COUNT frames and no frame was aborted by
pattern-table exhaustion (no diagnostic was logged), exactly one
ReferenceEntry is emitted per sheet frame. -/
theorem c1_ref_per_frame (img : Img) (iw ih fw fh oxa oya : Int)
    (hmode : conv_mode fw fh = ConvMode.XOBJ)
    (hcap : (Int.tdiv ih fh).toNat * (Int.tdiv iw fw).toNat ≤ PCG_REF_MAX_COUNT)
    (hlog : (convert img iw ih fw fh oxa oya).st.log = []) :
    (convert img iw ih fw fh oxa oya).st.ref.length =
      (Int.tdiv ih fh).toNat * (Int.tdiv iw fw).toNat := by
  rw [convert] at hlog ⊢
  rw [hmode] at hlog ⊢
  have h := processFrames_ref_length iw (normalize_origin fw fh oxa oya).1
    (normalize_origin fw fh oxa oya).2 fw fh
    (frameList (Int.tdiv ih fh).toNat (Int.tdiv iw fw).toNat) img record_init
    (by rw [frameList_length]; simpa [record_init] using hcap)
    (by rw [hlog]; rfl)
  rw [h, frameList_length]
  simp [record_init]

/-- C1 (witness): a single all-transparent 17x1 XOBJ frame yields
exactly one reference entry. -/
theorem c1_witness :
    (convert (fun _ => 0) 17 1 17 1 (-1) (-1)).st.ref.length = 1 := by
  have h := c1_ref_per_frame (fun _ => 0) 17 1 17 1 (-1) (-1) (by decide) (by decide)
    (by decide)
  rw [h]
  decide

/-! ## Claim C2 -/

/-- C2 (counterexample): on the 4097-frame all-transparent sheet the
reference table reaches its capacity and one entry is silently
dropped, yet the diagnostics log stays empty: reference-table
exhaustion neither stops extraction with a diagnostic nor is surfaced
at all. -/
theorem c2_counterexample :
    (convert (fun _ => 0) 69649 1 17 1 (-1) (-1)).st.log = [] ∧
    (convert (fun _ => 0) 69649 1 17 1 (-1) (-1)).st.ref.length = PCG_REF_MAX_COUNT ∧
    (Int.tdiv 1 1).toNat * (Int.tdiv 69649 17).toNat = 4097 := by
  have hconv : convert (fun _ => 0) 69649 1 17 1 (-1) (-1) =
      processFrames 69649 ConvMode.XOBJ 8 0 17 1 (frameList 1 4097) (fun _ => 0) record_init :=
    rfl
  obtain ⟨-, -, h3, h4, -, -⟩ := processFrames_zero_xobj 69649 8 0 17 1 (frameList 1 4097)
    record_init (by simp [record_init])
  rw [frameList_length] at h3
  refine ⟨?_, ?_, by decide⟩
  · rw [hconv, h4]
    rfl
  · rw [hconv, h3]
    decide

/-- C2 (amended): capacity handling as implemented: a full reference
or composition table silently drops further entries with no
diagnostic and without stopping extraction, while a full pattern
table aborts the current frame's extraction and appends exactly one
diagnostic; accumulated data is retained in the state in all cases. -/
theorem c2_capacity_behavior :
    (∀ (st : RecState) (c o : Nat), PCG_REF_MAX_COUNT ≤ st.ref.length →
      record_ref_dat st c o = st) ∧
    (∀ (st : RecState) (a b c : Int) (d : Nat), PCG_FRM_MAX_COUNT ≤ 8 * st.frm.length →
      record_frm_dat st a b c d = st) ∧
    (∀ (img : Img) (iw : Int) (mode : ConvMode) (ox oy sx sy sw sh : Int) (st : RecState),
      (chop_sprite img iw mode ox oy sx sy sw sh st).exit = LoopExit.pcgFull →
      (chop_sprite img iw mode ox oy sx sy sw sh st).st.log = st.log ++ [Diag.pcgFull]) := by
  refine ⟨fun st c o h => by rw [record_ref_dat, if_pos h],
    fun st a b c d h => by rw [record_frm_dat, if_pos h], ?_⟩
  intro img iw mode ox oy sx sy sw sh st habort
  rw [chop_sprite_log, if_pos habort]

/-- C2 (witness): the silent-drop and diagnostic behaviors at
concrete states. -/
theorem c2_witness :
    record_ref_dat ⟨[], [], List.replicate 4096 ⟨0, 0⟩, List.replicate 16 0, []⟩ 7 40 =
      ⟨[], [], List.replicate 4096 ⟨0, 0⟩, List.replicate 16 0, []⟩ := by
  exact c2_capacity_behavior.1 _ 7 40
    (by dsimp only; rw [List.length_replicate]; decide)

theorem chop_sprite_img (img : Img) (iw : Int) (mode : ConvMode) (ox oy sx sy sw sh : Int)
    (st : RecState) :
    (chop_sprite img iw mode ox oy sx sy sw sh st).img =
      (chopLoopF iw mode (ox - 8) (oy - 8) sx sy sw sh (sw.toNat * sh.toNat) img st 0 0 0).img := by
  rw [chop_sprite_eq]
  dsimp only
  rcases hx : (chopLoopF iw mode (ox - 8) (oy - 8) sx sy sw sh
      (sw.toNat * sh.toNat) img st 0 0 0).exit with _ | _ | _
  · cases mode <;> rfl
  · rfl
  · rfl

/-! ## Claim C5 -/

/-- C5: the region scanner returns none exactly when the search
rectangle is all-transparent; on a hit (col, row), row is the topmost
occupied row of the rectangle and col the leftmost column whose
16-row band below row (clipped to the rectangle bottom) is occupied;
and whenever the first scan finds a row, the whole scan succeeds, so
the defensive no-column branch is unreachable. -/
theorem c5_scanner_spec (img : Img) (iw sx sy sw sh : Int) :
    (claim img iw sx sy sw sh = none ↔ rectTransparent img iw sx sy sw sh) ∧
    (∀ col row, claim img iw sx sy sw sh = some (col, row) →
      (sy ≤ row ∧ row < sy + sh) ∧
      (∃ x, sx ≤ x ∧ x < sx + sw ∧ img (x + row * iw) ≠ 0) ∧
      (∀ y, sy ≤ y → y < row → ∀ x, sx ≤ x → x < sx + sw → img (x + y * iw) = 0) ∧
      (sx ≤ col ∧ col < sx + sw) ∧
      (∃ y, row ≤ y ∧ y < min (row + PCG_TILE_PX) (sy + sh) ∧ img (col + y * iw) ≠ 0) ∧
      (∀ x, sx ≤ x → x < col → ∀ y, row ≤ y → y < min (row + PCG_TILE_PX) (sy + sh) →
        img (x + y * iw) = 0)) ∧
    (∀ row, claimRow img iw sx sy sw sh = some row →
      ∃ col, claim img iw sx sy sw sh = some (col, row)) := by
  refine ⟨claim_eq_none_iff, ?_, ?_⟩
  · intro col row h
    rw [claim_eq_some_iff] at h
    obtain ⟨hr, hc⟩ := h
    rw [claimRow_eq_some_iff] at hr
    obtain ⟨hr1, hr2, hocc, hmin⟩ := hr
    rw [claimCol_eq_some_iff] at hc
    obtain ⟨hc1, hc2, hbocc, hbmin⟩ := hc
    rw [rowOcc_eq_true_iff] at hocc
    rw [colOcc_eq_true_iff] at hbocc
    refine ⟨⟨hr1, hr2⟩, hocc, ?_, ⟨hc1, hc2⟩, hbocc, ?_⟩
    · intro y hy1 hy2 x hx1 hx2
      have := hmin y hy1 hy2
      rw [rowOcc_eq_false_iff] at this
      exact this x hx1 hx2
    · intro x hx1 hx2 y hy1 hy2
      have := hbmin x hx1 hx2
      rw [colOcc_eq_false_iff] at this
      exact this y hy1 hy2
  · intro row hr
    obtain ⟨col, hc⟩ := claimCol_isSome_of_claimRow hr
    exact ⟨col, claim_eq_some_iff.mpr ⟨hr, hc⟩⟩

/-- C5 (witness): the scanner contract at a concrete 4x4 image with
pixels at (3,1) and (1,2): the hit is column 1, row 1, and the
witness extracts the occupied-band fact for that hit. -/
theorem c5_witness :
    ∃ y, (1 : Int) ≤ y ∧ y < min (1 + PCG_TILE_PX) (0 + 4) ∧
      (fun n => if n = 9 ∨ n = 7 then (5 : Nat) else 0) (1 + y * 4) ≠ 0 :=
  ((c5_scanner_spec (fun n => if n = 9 ∨ n = 7 then (5 : Nat) else 0) 4 0 0 4 4).2.1
    1 1 (by decide)).2.2.2.2.1

/-! ## Claim C9 -/

/-- C9: extraction is destructive and terminating: every scanner hit,
once clipped, strictly decreases the occupied-pixel count of the
frame; the per-frame loop with the pixel-count fuel bound never runs
out of fuel; and when it ends normally the scanner reports no
occupied region on the final buffer. -/
theorem c9_loop_terminates :
    (∀ (img : Img) (iw sx sy sw sh col row : Int),
      claim img iw sx sy sw sh = some (col, row) →
      nzCount (clip16 img iw col row (sx + sw) (sy + sh)).2 iw sx sy sw sh <
        nzCount img iw sx sy sw sh) ∧
    (∀ (img : Img) (iw : Int) (mode : ConvMode) (ox oy sx sy sw sh : Int) (st : RecState),
      (chop_sprite img iw mode ox oy sx sy sw sh st).exit ≠ LoopExit.fuelOut) ∧
    (∀ (img : Img) (iw : Int) (mode : ConvMode) (ox oy sx sy sw sh : Int) (st : RecState),
      (chop_sprite img iw mode ox oy sx sy sw sh st).exit = LoopExit.done →
      claim (chop_sprite img iw mode ox oy sx sy sw sh st).img iw sx sy sw sh = none) := by
  refine ⟨fun img iw sx sy sw sh col row h => nzCount_lt_of_claim h,
    fun img iw mode ox oy sx sy sw sh st => chop_sprite_no_fuelOut img iw mode ox oy sx sy sw sh st,
    ?_⟩
  intro img iw mode ox oy sx sy sw sh st hdone
  rw [chop_sprite_exit] at hdone
  rw [chop_sprite_img]
  exact chopLoopF_done_claim iw mode (ox - 8) (oy - 8) sx sy sw sh _ img st 0 0 0 hdone

/-- C9 (witness): one concrete destructive step: clipping the hit at
(1, 1) of the 4x4 test image strictly reduces its occupied pixels. -/
theorem c9_witness :
    nzCount (clip16 (fun n => if n = 9 ∨ n = 7 then (5 : Nat) else 0) 4 1 1 (0 + 4) (0 + 4)).2
        4 0 0 4 4 <
      nzCount (fun n => if n = 9 ∨ n = 7 then (5 : Nat) else 0) 4 0 0 4 4 :=
  c9_loop_terminates.1 (fun n => if n = 9 ∨ n = 7 then (5 : Nat) else 0) 4 0 0 4 4 1 1
    (by decide)

/-! ## Claim C10 -/

/-- C10: the origin normalization of `main` does not satisfy the
claimed bound 0 ≤ origin_y ≤ frame_h: with frame 100x10 and origin_y
argument 50 (origin_x defaulted), line 360's test against frame_w
leaves origin_y at 50, above frame_h = 10. -/
theorem c10_origin_clamp_bug :
    normalize_origin 100 10 (-1) 50 = (50, 50) ∧
    ¬((normalize_origin 100 10 (-1) 50).2 ≤ 10) := by
  decide

/-! ## Claim C7 -/

/-- The packed-color formula in the words of the spec: 5 bits per
channel from the top of each byte, green in the high bits, then red,
then blue, lowest bit zero. -/
def xsp_color_of_rgba (r g b : Nat) : Nat :=
  ((g >>> 3) <<< 11) ||| ((r >>> 3) <<< 6) ||| ((b >>> 3) <<< 1)

theorem pal_entry_lt (r g b : Nat) : pal_entry r g b < 65536 := by
  have e1 : ((r >>> 3) &&& 31) <<< 6 < 2 ^ 16 := by
    have h := Nat.and_le_right (n := r >>> 3) (m := 31)
    rw [Nat.shiftLeft_eq]
    omega
  have e2 : ((g >>> 3) &&& 31) <<< 11 < 2 ^ 16 := by
    have h := Nat.and_le_right (n := g >>> 3) (m := 31)
    rw [Nat.shiftLeft_eq]
    omega
  have e3 : ((b >>> 3) &&& 31) <<< 1 < 2 ^ 16 := by
    have h := Nat.and_le_right (n := b >>> 3) (m := 31)
    rw [Nat.shiftLeft_eq]
    omega
  have := Nat.or_lt_two_pow (Nat.or_lt_two_pow e1 e2) e3
  rw [pal_entry]
  omega

/-- For byte-sized channels the masked source formula coincides with
the spec's unmasked one. -/
theorem pal_entry_eq_spec (r g b : Nat) (hr : r < 256) (hg : g < 256) (hb : b < 256) :
    pal_entry r g b % 65536 = xsp_color_of_rgba r g b := by
  rw [Nat.mod_eq_of_lt (pal_entry_lt r g b), pal_entry, xsp_color_of_rgba]
  have m1 : (r >>> 3) &&& 31 = r >>> 3 := by
    have h2 : r >>> 3 < 32 := by rw [Nat.shiftRight_eq_div_pow]; omega
    have h3 := Nat.and_pow_two_sub_one_eq_mod (r >>> 3) 5
    norm_num at h3
    rw [h3, Nat.mod_eq_of_lt h2]
  have m2 : (g >>> 3) &&& 31 = g >>> 3 := by
    have h2 : g >>> 3 < 32 := by rw [Nat.shiftRight_eq_div_pow]; omega
    have h3 := Nat.and_pow_two_sub_one_eq_mod (g >>> 3) 5
    norm_num at h3
    rw [h3, Nat.mod_eq_of_lt h2]
  have m3 : (b >>> 3) &&& 31 = b >>> 3 := by
    have h2 : b >>> 3 < 32 := by rw [Nat.shiftRight_eq_div_pow]; omega
    have h3 := Nat.and_pow_two_sub_one_eq_mod (b >>> 3) 5
    norm_num at h3
    rw [h3, Nat.mod_eq_of_lt h2]
  rw [m1, m2, m3, Nat.lor_comm (r >>> 3 <<< 6) (g >>> 3 <<< 11)]

/-- C7: the emitted palette has entry 0 equal to 0 regardless of the
source palette, and every entry 1..15 is the deterministic packing of
the corresponding source RGBA bytes with green in the high bits, then
red, then blue, lowest bit zero. -/
theorem c7_palette (srcPal : Nat → Nat) (st : RecState) (hlen : st.pal.length = 16) :
    (convert_palette srcPal st).pal[0]? = some 0 ∧
    (∀ i : Nat, 1 ≤ i → i < 16 →
      (convert_palette srcPal st).pal[i]? =
        some (xsp_color_of_rgba (srcPal (4 * i) % 256) (srcPal (4 * i + 1) % 256)
          (srcPal (4 * i + 2) % 256))) := by
  constructor
  · simp [convert_palette, record_pal_dat, List.getElem?_set, List.length_set, hlen,
      List.range_succ]
  · intro i h1 h2
    interval_cases i <;>
    · simp [convert_palette, record_pal_dat, List.getElem?_set, List.length_set, hlen,
        List.range_succ]
      rw [pal_entry_eq_spec _ _ _ (Nat.mod_lt _ (by norm_num)) (Nat.mod_lt _ (by norm_num))
        (Nat.mod_lt _ (by norm_num))]

/-- C7 (witness): entry 2 of the palette converted from the identity
byte source. -/
theorem c7_witness : (convert_palette (fun n => n) record_init).pal[2]? = some 2114 := by
  have h := (c7_palette (fun n => n) record_init (by simp [record_init])).2 2
    (by norm_num) (by norm_num)
  rw [h]
  decide

/-! ## Claim C6 -/

theorem length_flatMap_const {α β : Type} (f : α → List β) (k : Nat)
    (h : ∀ a, (f a).length = k) :
    ∀ l : List α, (l.flatMap f).length = k * l.length := by
  intro l
  induction l with
  | nil => simp
  | cons a rest ih =>
    rw [List.flatMap_cons, List.length_append, ih, h a, List.length_cons]
    ring

theorem refEntryBytes_length (r : RefEntry) : (refEntryBytes r).length = 8 := rfl

theorem frmEntryBytes_length (e : FrmEntry) : (frmEntryBytes e).length = 8 := rfl

theorem tileBytes_length (t : List Nat) : (tileBytes t).length = 128 := by
  rw [tileBytes, List.length_take, List.length_append, List.length_replicate]
  omega

theorem headerBytes_length (h : XSBHeader) : (headerBytes h).length = 52 := by
  rw [headerBytes]
  simp only [List.length_append, be16, be32, List.length_cons, List.length_nil]
  rw [length_flatMap_const be16 2 (fun a => rfl), List.length_take, List.length_append,
    List.length_replicate]
  omega

/-- C6: the bundle header's offsets are internally consistent with
its declared counts: the reference table starts right after the
header, the composition table right after `8 * ref_count` bytes of
reference entries, the tile atlas right after `frm_bytes` more bytes,
and each serialized section has exactly the declared length; the XOBJ
bundle is laid out header, reference table, composition table, tile
atlas. -/
theorem c6_header_consistent (st : RecState) (mode : ConvMode) :
    (make_header st mode).ref_offs = (headerBytes (make_header st mode)).length ∧
    (make_header st mode).frm_offs =
      (make_header st mode).ref_offs + 8 * (make_header st mode).ref_count ∧
    (make_header st mode).pcg_offs =
      (make_header st mode).frm_offs + (make_header st mode).frm_bytes ∧
    (refBytes st).length = 8 * (make_header st mode).ref_count ∧
    (frmBytes st).length = (make_header st mode).frm_bytes ∧
    (pcgBytes st).length = 128 * (make_header st mode).pcg_count ∧
    bundleBytes st ConvMode.XOBJ =
      headerBytes (make_header st ConvMode.XOBJ) ++
        (refBytes st ++ (frmBytes st ++ pcgBytes st)) := by
  refine ⟨?_, rfl, rfl, ?_, ?_, ?_, ?_⟩
  · rw [headerBytes_length]
    rfl
  · rw [make_header]
    exact length_flatMap_const refEntryBytes 8 refEntryBytes_length st.ref
  · rw [make_header]
    exact length_flatMap_const frmEntryBytes 8 frmEntryBytes_length st.frm
  · rw [make_header]
    exact length_flatMap_const tileBytes 128 tileBytes_length st.pcg
  · rw [bundleBytes]
    simp [List.append_assoc]

/-! ## Claim C8 -/

/-- In SP mode the loop records no FRM entries, and on a normal exit
every extracted tile was appended, in order, to the pattern table. -/
theorem chopLoopF_sp (iw ox oy sx sy sw sh : Int) :
    ∀ (fuel : Nat) (img : Img) (st : RecState) (sp : Nat) (lx ly : Int),
      (chopLoopF iw ConvMode.SP ox oy sx sy sw sh fuel img st sp lx ly).st.frm = st.frm ∧
      ((chopLoopF iw ConvMode.SP ox oy sx sy sw sh fuel img st sp lx ly).exit =
          LoopExit.done →
        (chopLoopF iw ConvMode.SP ox oy sx sy sw sh fuel img st sp lx ly).st.pcg =
          st.pcg ++
            (chopLoopF iw ConvMode.SP ox oy sx sy sw sh fuel img st sp lx ly).trace.map
              SpriteEv.tile) := by
  intro fuel
  induction fuel with
  | zero =>
    intro img st sp lx ly
    rcases hcl : claim img iw sx sy sw sh with _ | hit
    · rw [chopLoopF_claim_none hcl]
      exact ⟨rfl, fun _ => by simp⟩
    · rw [chopLoopF_zero_some hcl]
      exact ⟨rfl, fun h => absurd h (by simp)⟩
  | succ f ih =>
    intro img st sp lx ly
    rcases hcl : claim img iw sx sy sw sh with _ | ⟨cx, cy⟩
    · rw [chopLoopF_claim_none hcl]
      exact ⟨rfl, fun _ => by simp⟩
    · by_cases hcap : PCG_PT_MAX_COUNT ≤ st.pcg.length
      · rw [chopLoopF_succ_full hcl (by simp) hcap]
        exact ⟨rfl, fun h => absurd h (by simp)⟩
      · rw [chopLoopF_succ_sp hcl (by omega)]
        dsimp only
        obtain ⟨i1, i2⟩ := ih (clip16 img iw cx cy (sx + sw) (sy + sh)).2
          (record_pcg_dat st (clip16 img iw cx cy (sx + sw) (sy + sh)).1)
          ((sp + 1) % 65536) lx ly
        refine ⟨by rw [i1]; simp, fun hdone => ?_⟩
        rw [i2 hdone, record_pcg_dat_lt _ (by omega)]
        simp

theorem chop_sprite_sp_state (img : Img) (iw ox oy sx sy sw sh : Int) (st : RecState) :
    (chop_sprite img iw ConvMode.SP ox oy sx sy sw sh st).st =
      (chopLoopF iw ConvMode.SP (ox - 8) (oy - 8) sx sy sw sh
        (sw.toNat * sh.toNat) img st 0 0 0).st ∧
    (chop_sprite img iw ConvMode.SP ox oy sx sy sw sh st).trace =
      (chopLoopF iw ConvMode.SP (ox - 8) (oy - 8) sx sy sw sh
        (sw.toNat * sh.toNat) img st 0 0 0).trace := by
  rw [chop_sprite_eq]
  dsimp only
  rcases hx : (chopLoopF iw ConvMode.SP (ox - 8) (oy - 8) sx sy sw sh
      (sw.toNat * sh.toNat) img st 0 0 0).exit with _ | _ | _ <;> exact ⟨rfl, rfl⟩

/-- C8: single-tile (SP) mode is selected exactly when both frame
dimensions are at most one tile; in SP mode a frame contributes no
composition and no reference entries, on a normal exit it appends
exactly the extracted raw tiles to the pattern table, and both the
bundle and the split layout omit the composition and reference
sections. -/
theorem c8_sp_mode (fw fh : Int) (img : Img) (iw ox oy sx sy sw sh : Int) (st : RecState) :
    (conv_mode fw fh = ConvMode.SP ↔ (fw ≤ PCG_TILE_PX ∧ fh ≤ PCG_TILE_PX)) ∧
    (chop_sprite img iw ConvMode.SP ox oy sx sy sw sh st).st.frm = st.frm ∧
    (chop_sprite img iw ConvMode.SP ox oy sx sy sw sh st).st.ref = st.ref ∧
    ((chop_sprite img iw ConvMode.SP ox oy sx sy sw sh st).exit = LoopExit.done →
      (chop_sprite img iw ConvMode.SP ox oy sx sy sw sh st).st.pcg =
        st.pcg ++ (chop_sprite img iw ConvMode.SP ox oy sx sy sw sh st).trace.map
          SpriteEv.tile) ∧
    bundleBytes st ConvMode.SP = headerBytes (make_header st ConvMode.SP) ++ pcgBytes st ∧
    splitOutputs st ConvMode.SP = [(OutFile.sp, pcgBytes st), (OutFile.pal, palBytes st)] := by
  obtain ⟨hst, htr⟩ := chop_sprite_sp_state img iw ox oy sx sy sw sh st
  obtain ⟨hfrm, hpcg⟩ := chopLoopF_sp iw (ox - 8) (oy - 8) sx sy sw sh
    (sw.toNat * sh.toNat) img st 0 0 0
  refine ⟨?_, by rw [hst, hfrm], by rw [hst]; exact (chopLoopF_state _ _ _ _ _ _ _ _ _ _ _ _ _ _).1,
    ?_, by rw [bundleBytes]; simp, rfl⟩
  · by_cases h : fw ≤ PCG_TILE_PX ∧ fh ≤ PCG_TILE_PX <;> simp [conv_mode, h]
  · intro hdone
    rw [chop_sprite_exit] at hdone
    rw [hst, htr]
    exact hpcg hdone

/-- C8 (witness): one SP frame on a concrete 4x4 image: the mode test
and the raw-tile accumulation at a concrete input. -/
theorem c8_witness :
    conv_mode 4 4 = ConvMode.SP ∧
    (chop_sprite (fun n => if n = 9 ∨ n = 7 then (5 : Nat) else 0) 4 ConvMode.SP 2 2 0 0 4 4
        record_init).st.pcg =
      record_init.pcg ++
        (chop_sprite (fun n => if n = 9 ∨ n = 7 then (5 : Nat) else 0) 4 ConvMode.SP 2 2 0 0 4 4
          record_init).trace.map SpriteEv.tile := by
  constructor
  · exact (c8_sp_mode 4 4 (fun n => if n = 9 ∨ n = 7 then (5 : Nat) else 0) 4 2 2 0 0 4 4
      record_init).1.mpr (by decide)
  · exact (c8_sp_mode 4 4 (fun n => if n = 9 ∨ n = 7 then (5 : Nat) else 0) 4 2 2 0 0 4 4
      record_init).2.2.2.1 (by decide)

/-! ## Pointwise effect of the 16x16 clip -/

/-- A flat index that is not the address of any in-bounds pixel of
the 16x16 block is untouched by the destructive clip. -/
theorem clip16_snd_apply_out {img : Img} {iw cx cy lx ly n : Int}
    (h : ∀ x y : Int, cx ≤ x → x < cx + 16 → cy ≤ y → y < cy + 16 → x < lx → y < ly →
      n ≠ x + y * iw) :
    (clip16 img iw cx cy lx ly).2 n = img n := by
  rw [clip16_snd_apply, if_neg]
  push_neg
  refine ⟨?_, ?_, ?_, ?_⟩ <;>
  · intro hbad
    rw [inClip_eq_true_iff] at hbad
    obtain ⟨i, j, hi, hj, hn⟩ := hbad
    have hi8 : ((i : Nat) : Int) < 8 := by exact_mod_cast i.isLt
    have hj8 : ((j : Nat) : Int) < 8 := by exact_mod_cast j.isLt
    have hi0 : (0 : Int) ≤ ((i : Nat) : Int) := Int.ofNat_nonneg _
    have hj0 : (0 : Int) ≤ ((j : Nat) : Int) := Int.ofNat_nonneg _
    exact h _ _ (by omega) (by omega) (by omega) (by omega) (by omega) (by omega) hn

/-- Every in-bounds pixel of the 16x16 block is cleared. -/
theorem clip16_snd_apply_in {img : Img} {iw cx cy lx ly x y : Int}
    (hx1 : cx ≤ x) (hx2 : x < cx + 16) (hy1 : cy ≤ y) (hy2 : y < cy + 16)
    (hlx : x < lx) (hly : y < ly) :
    (clip16 img iw cx cy lx ly).2 (x + y * iw) = 0 := by
  rw [clip16_snd_apply]
  have hquad : ∀ qx qy : Int, qx ≤ x → x < qx + 8 → qy ≤ y → y < qy + 8 →
      inClip iw qx qy lx ly (x + y * iw) = true := by
    intro qx qy h1 h2 h3 h4
    rw [inClip_eq_true_iff]
    have e1 : (((x - qx).toNat : Nat) : Int) = x - qx := by omega
    have e2 : (((y - qy).toNat : Nat) : Int) = y - qy := by omega
    refine ⟨⟨(x - qx).toNat, by omega⟩, ⟨(y - qy).toNat, by omega⟩, ?_, ?_, ?_⟩ <;>
      simp only [Fin.val_mk]
    · rw [e1]
      omega
    · rw [e2]
      omega
    · rw [e1, e2]
      ring
  rcases lt_or_le x (cx + 8) with hx8 | hx8 <;> rcases lt_or_le y (cy + 8) with hy8 | hy8
  · rw [if_pos (Or.inl (hquad cx cy hx1 hx8 hy1 hy8))]
  · rw [if_pos (Or.inr (Or.inl (hquad cx (cy + 8) hx1 hx8 hy8 (by omega))))]
  · rw [if_pos (Or.inr (Or.inr (Or.inl (hquad (cx + 8) cy hx8 (by omega) hy1 hy8))))]
  · rw [if_pos (Or.inr (Or.inr (Or.inr (hquad (cx + 8) (cy + 8) hx8 (by omega) hy8
      (by omega)))))]

/-! ## Pattern lookup characterization -/

theorem findTileAux_cons (t u : List Nat) (rest : List (List Nat)) (i : Nat) :
    findTileAux t (u :: rest) i = if u = t then some i else findTileAux t rest (i + 1) := rfl

theorem findTileAux_eq_some_iff {t : List Nat} :
    ∀ (l : List (List Nat)) (i k : Nat),
      findTileAux t l i = some k ↔
        i ≤ k ∧ k - i < l.length ∧ l.getD (k - i) [] = t ∧
          ∀ j, j < k - i → l.getD j [] ≠ t := by
  intro l
  induction l with
  | nil =>
    intro i k
    constructor
    · intro h
      exact absurd h (by simp [findTileAux])
    · rintro ⟨h1, h2, -, -⟩
      simp at h2
  | cons u rest ih =>
    intro i k
    by_cases hu : u = t
    · rw [findTileAux_cons, if_pos hu]
      constructor
      · intro h
        rw [Option.some_inj] at h
        subst h
        exact ⟨Nat.le_refl i, by simp, by simp [Nat.sub_self, hu], fun j hj => by omega⟩
      · rintro ⟨h1, h2, h3, h4⟩
        rcases Nat.eq_or_lt_of_le h1 with heq | hlt
        · rw [heq]
        · have h5 := h4 0 (by omega)
          rw [List.getD_cons_zero] at h5
          exact absurd hu h5
    · rw [findTileAux_cons, if_neg hu, ih]
      constructor
      · rintro ⟨h1, h2, h3, h4⟩
        have hk : k - i = (k - (i + 1)) + 1 := by omega
        refine ⟨by omega, by simp; omega, ?_, ?_⟩
        · rw [hk, List.getD_cons_succ]
          exact h3
        · intro j hj
          cases j with
          | zero =>
            rw [List.getD_cons_zero]
            exact hu
          | succ j' =>
            rw [List.getD_cons_succ]
            exact h4 j' (by omega)
      · rintro ⟨h1, h2, h3, h4⟩
        rcases Nat.eq_or_lt_of_le h1 with heq | hlt
        · rw [← heq, Nat.sub_self, List.getD_cons_zero] at h3
          exact absurd h3 hu
        · have hk : k - i = (k - (i + 1)) + 1 := by omega
          rw [hk, List.getD_cons_succ] at h3
          refine ⟨by omega, by simp at h2; omega, h3, ?_⟩
          intro j hj
          have h5 := h4 (j + 1) (by omega)
          rw [List.getD_cons_succ] at h5
          exact h5

/-- `record_find_pcg_dat` returns the first byte-identical stored
tile. -/
theorem record_find_pcg_dat_eq_some_iff {pcg : List (List Nat)} {t : List Nat} {i : Nat} :
    record_find_pcg_dat pcg t = some i ↔
      i < pcg.length ∧ pcg.getD i [] = t ∧ ∀ j, j < i → pcg.getD j [] ≠ t := by
  rw [record_find_pcg_dat, findTileAux_eq_some_iff]
  simp only [Nat.sub_zero, Nat.zero_le, true_and]

theorem findTileAux_append_some {t : List Nat} {l2 : List (List Nat)} :
    ∀ (l : List (List Nat)) {i k : Nat}, findTileAux t l i = some k →
      findTileAux t (l ++ l2) i = some k := by
  intro l
  induction l with
  | nil =>
    intro i k h
    exact absurd h (by simp [findTileAux])
  | cons u rest ih =>
    intro i k h
    rw [findTileAux_cons] at h
    rw [List.cons_append, findTileAux_cons]
    by_cases hu : u = t
    · rw [if_pos hu] at h ⊢
      exact h
    · rw [if_neg hu] at h ⊢
      exact ih h

theorem findTileAux_append_new {t : List Nat} :
    ∀ (l : List (List Nat)) (i : Nat), findTileAux t l i = none →
      findTileAux t (l ++ [t]) i = some (i + l.length) := by
  intro l
  induction l with
  | nil =>
    intro i h
    simp [findTileAux_cons, findTileAux]
  | cons u rest ih =>
    intro i h
    rw [findTileAux_cons] at h
    by_cases hu : u = t
    · rw [if_pos hu] at h
      exact absurd h (by simp)
    · rw [if_neg hu] at h
      rw [List.cons_append, findTileAux_cons, if_neg hu, ih (i + 1) h]
      have : i + 1 + rest.length = i + (u :: rest).length := by
        rw [List.length_cons]
        omega
      rw [this]

theorem record_find_append_some {pcg : List (List Nat)} {t : List Nat} {i : Nat}
    (l : List (List Nat)) (h : record_find_pcg_dat pcg t = some i) :
    record_find_pcg_dat (pcg ++ l) t = some i :=
  findTileAux_append_some pcg h

theorem record_find_append_new {pcg : List (List Nat)} {t : List Nat}
    (h : record_find_pcg_dat pcg t = none) :
    record_find_pcg_dat (pcg ++ [t]) t = some pcg.length := by
  have h2 := findTileAux_append_new pcg 0 h
  rw [Nat.zero_add] at h2
  exact h2

/-- Along an XOBJ run of the loop, every assigned pattern index is
the first-match index of its tile in the final pattern table. -/
theorem chopLoopF_dedup (iw ox oy sx sy sw sh : Int) :
    ∀ (fuel : Nat) (img : Img) (st : RecState) (sp : Nat) (lx ly : Int),
      ∀ e ∈ (chopLoopF iw ConvMode.XOBJ ox oy sx sy sw sh fuel img st sp lx ly).trace,
        ∀ i, e.ptIdx = some i →
          record_find_pcg_dat
            (chopLoopF iw ConvMode.XOBJ ox oy sx sy sw sh fuel img st sp lx ly).st.pcg
            e.tile = some i := by
  intro fuel
  induction fuel with
  | zero =>
    intro img st sp lx ly e he i hi
    rcases hcl : claim img iw sx sy sw sh with _ | hit
    · rw [chopLoopF_claim_none hcl] at he
      simp at he
    · rw [chopLoopF_zero_some hcl] at he
      simp at he
  | succ f ih =>
    intro img st sp lx ly e he i hi
    rcases hcl : claim img iw sx sy sw sh with _ | ⟨cx, cy⟩
    · rw [chopLoopF_claim_none hcl] at he
      simp at he
    · rcases hfind : record_find_pcg_dat st.pcg (clip16 img iw cx cy (sx + sw) (sy + sh)).1
        with _ | k
      · by_cases hcap : PCG_PT_MAX_COUNT ≤ st.pcg.length
        · rw [chopLoopF_succ_full hcl (by simpa using hfind) hcap] at he
          simp only [List.mem_singleton] at he
          rw [he] at hi
          exact absurd hi (by simp)
        · rw [chopLoopF_succ_miss hcl hfind (by omega)] at he ⊢
          dsimp only at he ⊢
          rcases List.mem_cons.mp he with he1 | he2
          · obtain ⟨-, -, -, ⟨l4, hpcg⟩, -⟩ := chopLoopF_state iw ConvMode.XOBJ ox oy sx sy sw sh
              f (clip16 img iw cx cy (sx + sw) (sy + sh)).2
              (record_frm_dat (record_pcg_dat st (clip16 img iw cx cy (sx + sw) (sy + sh)).1)
                (Int.tmod cx sw - ox - lx) (Int.tmod cy sh - oy - ly) (st.pcg.length : Int) 0)
              ((sp + 1) % 65536) (Int.tmod cx sw - ox) (Int.tmod cy sh - oy)
            rw [record_frm_dat_pcg, record_pcg_dat_lt _ (by omega)] at hpcg
            rw [hpcg]
            rw [he1] at hi
            dsimp only at hi
            rw [Option.some_inj] at hi
            rw [he1]
            dsimp only
            rw [← hi]
            exact record_find_append_some l4 (record_find_append_new hfind)
          · exact ih _ _ _ _ _ e he2 i hi
      · rw [chopLoopF_succ_found hcl hfind] at he ⊢
        dsimp only at he ⊢
        rcases List.mem_cons.mp he with he1 | he2
        · obtain ⟨-, -, -, ⟨l4, hpcg⟩, -⟩ := chopLoopF_state iw ConvMode.XOBJ ox oy sx sy sw sh
            f (clip16 img iw cx cy (sx + sw) (sy + sh)).2
            (record_frm_dat st (Int.tmod cx sw - ox - lx) (Int.tmod cy sh - oy - ly)
              (k : Int) 0)
            ((sp + 1) % 65536) (Int.tmod cx sw - ox) (Int.tmod cy sh - oy)
          rw [record_frm_dat_pcg] at hpcg
          rw [hpcg]
          rw [he1] at hi
          dsimp only at hi
          rw [Option.some_inj] at hi
          rw [he1]
          dsimp only
          rw [← hi]
          exact record_find_append_some l4 hfind
        · exact ih _ _ _ _ _ e he2 i hi

theorem chop_sprite_xobj_state (img : Img) (iw ox oy sx sy sw sh : Int) (st : RecState) :
    (chop_sprite img iw ConvMode.XOBJ ox oy sx sy sw sh st).st.pcg =
      (chopLoopF iw ConvMode.XOBJ (ox - 8) (oy - 8) sx sy sw sh
        (sw.toNat * sh.toNat) img st 0 0 0).st.pcg ∧
    (chop_sprite img iw ConvMode.XOBJ ox oy sx sy sw sh st).trace =
      (chopLoopF iw ConvMode.XOBJ (ox - 8) (oy - 8) sx sy sw sh
        (sw.toNat * sh.toNat) img st 0 0 0).trace := by
  rw [chop_sprite_eq]
  dsimp only
  rcases hx : (chopLoopF iw ConvMode.XOBJ (ox - 8) (oy - 8) sx sy sw sh
      (sw.toNat * sh.toNat) img st 0 0 0).exit with _ | _ | _
  · exact ⟨record_ref_dat_pcg _ _ _, rfl⟩
  · exact ⟨rfl, rfl⟩
  · exact ⟨rfl, rfl⟩

theorem chop_sprite_dedup (img : Img) (iw ox oy sx sy sw sh : Int) (st : RecState) :
    ∀ e ∈ (chop_sprite img iw ConvMode.XOBJ ox oy sx sy sw sh st).trace,
      ∀ i, e.ptIdx = some i →
        record_find_pcg_dat (chop_sprite img iw ConvMode.XOBJ ox oy sx sy sw sh st).st.pcg
          e.tile = some i := by
  obtain ⟨hp, ht⟩ := chop_sprite_xobj_state img iw ox oy sx sy sw sh st
  rw [hp, ht]
  exact chopLoopF_dedup iw (ox - 8) (oy - 8) sx sy sw sh _ img st 0 0 0

theorem chop_sprite_pcg_mono (img : Img) (iw : Int) (mode : ConvMode)
    (ox oy sx sy sw sh : Int) (st : RecState) :
    ∃ l, (chop_sprite img iw mode ox oy sx sy sw sh st).st.pcg = st.pcg ++ l := by
  obtain ⟨-, -, -, ⟨l, hl⟩, -⟩ := chopLoopF_state iw mode (ox - 8) (oy - 8) sx sy sw sh
    (sw.toNat * sh.toNat) img st 0 0 0
  refine ⟨l, ?_⟩
  rw [chop_sprite_eq]
  dsimp only
  rcases hx : (chopLoopF iw mode (ox - 8) (oy - 8) sx sy sw sh
      (sw.toNat * sh.toNat) img st 0 0 0).exit with _ | _ | _
  · cases mode
    · dsimp only
      rw [record_ref_dat_pcg]
      exact hl
    · exact hl
  · exact hl
  · exact hl

theorem processFrames_pcg_mono (iw : Int) (mode : ConvMode) (ox oy fw fh : Int) :
    ∀ (L : List (Nat × Nat)) (img : Img) (st : RecState),
      ∃ l, (processFrames iw mode ox oy fw fh L img st).st.pcg = st.pcg ++ l := by
  intro L
  induction L with
  | nil =>
    intro img st
    exact ⟨[], by simp [processFrames]⟩
  | cons hd rest ih =>
    intro img st
    rcases hd with ⟨y, x⟩
    obtain ⟨l1, h1⟩ := chop_sprite_pcg_mono img iw mode ox oy ((x : Int) * fw)
      ((y : Int) * fh) fw fh st
    obtain ⟨l2, h2⟩ := ih (chop_sprite img iw mode ox oy ((x : Int) * fw) ((y : Int) * fh)
        fw fh st).img
      (chop_sprite img iw mode ox oy ((x : Int) * fw) ((y : Int) * fh) fw fh st).st
    refine ⟨l1 ++ l2, ?_⟩
    show (processFrames iw mode ox oy fw fh rest _ _).st.pcg = _
    rw [h2, h1, List.append_assoc]

/-- Across a whole XOBJ run, every assigned pattern index is the
first-match index of its tile in the final pattern table. -/
theorem processFrames_dedup (iw ox oy fw fh : Int) :
    ∀ (L : List (Nat × Nat)) (img : Img) (st : RecState),
      ∀ e ∈ (processFrames iw ConvMode.XOBJ ox oy fw fh L img st).trace,
        ∀ i, e.ptIdx = some i →
          record_find_pcg_dat (processFrames iw ConvMode.XOBJ ox oy fw fh L img st).st.pcg
            e.tile = some i := by
  intro L
  induction L with
  | nil =>
    intro img st e he
    simp [processFrames] at he
  | cons hd rest ih =>
    intro img st e he i hi
    rcases hd with ⟨y, x⟩
    have hstep : processFrames iw ConvMode.XOBJ ox oy fw fh ((y, x) :: rest) img st =
        ⟨(processFrames iw ConvMode.XOBJ ox oy fw fh rest
            (chop_sprite img iw ConvMode.XOBJ ox oy ((x : Int) * fw) ((y : Int) * fh)
              fw fh st).img
            (chop_sprite img iw ConvMode.XOBJ ox oy ((x : Int) * fw) ((y : Int) * fh)
              fw fh st).st).img,
         (processFrames iw ConvMode.XOBJ ox oy fw fh rest
            (chop_sprite img iw ConvMode.XOBJ ox oy ((x : Int) * fw) ((y : Int) * fh)
              fw fh st).img
            (chop_sprite img iw ConvMode.XOBJ ox oy ((x : Int) * fw) ((y : Int) * fh)
              fw fh st).st).st,
         (chop_sprite img iw ConvMode.XOBJ ox oy ((x : Int) * fw) ((y : Int) * fh)
            fw fh st).trace ++
          (processFrames iw ConvMode.XOBJ ox oy fw fh rest
            (chop_sprite img iw ConvMode.XOBJ ox oy ((x : Int) * fw) ((y : Int) * fh)
              fw fh st).img
            (chop_sprite img iw ConvMode.XOBJ ox oy ((x : Int) * fw) ((y : Int) * fh)
              fw fh st).st).trace⟩ := rfl
    rw [hstep] at he ⊢
    dsimp only at he ⊢
    rcases List.mem_append.mp he with he1 | he2
    · have hfound := chop_sprite_dedup img iw ox oy ((x : Int) * fw) ((y : Int) * fh)
        fw fh st e he1 i hi
      obtain ⟨l, hl⟩ := processFrames_pcg_mono iw ConvMode.XOBJ ox oy fw fh rest
        (chop_sprite img iw ConvMode.XOBJ ox oy ((x : Int) * fw) ((y : Int) * fh)
          fw fh st).img
        (chop_sprite img iw ConvMode.XOBJ ox oy ((x : Int) * fw) ((y : Int) * fh)
          fw fh st).st
      rw [hl]
      exact record_find_append_some l hfound
    · exact ih _ _ e he2 i hi

/-! ## A one-pixel SP frame -/

theorem claim_one_px {img : Img} {iw sx : Int} (h1 : img sx ≠ 0) :
    claim img iw sx 0 1 1 = some (sx, 0) := by
  rw [claim_eq_some_iff]
  constructor
  · rw [claimRow_eq_some_iff]
    refine ⟨le_refl 0, by omega, ?_, fun y hy1 hy2 => by omega⟩
    rw [rowOcc_eq_true_iff]
    exact ⟨sx, le_refl sx, by omega, by rw [show sx + 0 * iw = sx by ring]; exact h1⟩
  · rw [claimCol_eq_some_iff]
    refine ⟨le_refl sx, by omega, ?_, fun x hx1 hx2 => by omega⟩
    rw [colOcc_eq_true_iff]
    refine ⟨0, le_refl 0, ?_, by rw [show sx + 0 * iw = sx by ring]; exact h1⟩
    rw [PCG_TILE_PX]
    norm_num

/-- One SP frame holding a single occupied pixel: exactly one sprite
is extracted; the tile is appended when the pattern table has room
and dropped (with an aborting diagnostic) when it is full; nothing
outside the frame's pixel is touched. -/
theorem chop_sprite_one_px (iw ox oy sx : Int) (st : RecState) (img : Img)
    (h1 : img sx ≠ 0) :
    (chop_sprite img iw ConvMode.SP ox oy sx 0 1 1 st).st.pcg.length =
      (if st.pcg.length < PCG_PT_MAX_COUNT then st.pcg.length + 1 else st.pcg.length) ∧
    (chop_sprite img iw ConvMode.SP ox oy sx 0 1 1 st).trace.length = 1 ∧
    (∀ n : Int, n ≠ sx → (chop_sprite img iw ConvMode.SP ox oy sx 0 1 1 st).img n = img n) := by
  have hclaim : claim img iw sx 0 1 1 = some (sx, 0) := claim_one_px h1
  have herase : claim (clip16 img iw sx 0 (sx + 1) (0 + 1)).2 iw sx 0 1 1 = none := by
    rw [claim_eq_none_iff]
    intro x y hx1 hx2 hy1 hy2
    have hx : x = sx := by omega
    have hy : y = 0 := by omega
    rw [hx, hy]
    exact clip16_snd_apply_in (le_refl sx) (by omega) (le_refl 0) (by omega) (by omega)
      (by omega)
  have huntouched : ∀ n : Int, n ≠ sx → (clip16 img iw sx 0 (sx + 1) (0 + 1)).2 n = img n := by
    intro n hn
    apply clip16_snd_apply_out
    intro x y hx1 hx2 hy1 hy2 hlx hly
    have hx : x = sx := by omega
    have hy : y = 0 := by omega
    rw [hx, hy, show sx + 0 * iw = sx by ring]
    exact hn
  rw [chop_sprite_eq]
  have hfuel : ((1 : Int).toNat * (1 : Int).toNat) = 0 + 1 := rfl
  by_cases hcap : st.pcg.length < PCG_PT_MAX_COUNT
  · have hloop : chopLoopF iw ConvMode.SP (ox - 8) (oy - 8) sx 0 1 1
        ((1 : Int).toNat * (1 : Int).toNat) img st 0 0 0 =
        ⟨(clip16 img iw sx 0 (sx + 1) (0 + 1)).2,
          record_pcg_dat st (clip16 img iw sx 0 (sx + 1) (0 + 1)).1, 1 % 65536,
          LoopExit.done,
          [⟨sx, 0, (clip16 img iw sx 0 (sx + 1) (0 + 1)).1, some st.pcg.length⟩]⟩ := by
      rw [hfuel, chopLoopF_succ_sp hclaim hcap]
      dsimp only
      rw [chopLoopF_claim_none herase]
    rw [hloop]
    dsimp only
    refine ⟨?_, rfl, huntouched⟩
    rw [if_pos hcap, record_pcg_dat_lt _ hcap, List.length_append]
    rfl
  · have hloop : chopLoopF iw ConvMode.SP (ox - 8) (oy - 8) sx 0 1 1
        ((1 : Int).toNat * (1 : Int).toNat) img st 0 0 0 =
        ⟨(clip16 img iw sx 0 (sx + 1) (0 + 1)).2,
          { st with log := st.log ++ [Diag.pcgFull] }, 1 % 65536, LoopExit.pcgFull,
          [⟨sx, 0, (clip16 img iw sx 0 (sx + 1) (0 + 1)).1, none⟩]⟩ := by
      rw [hfuel, chopLoopF_succ_full hclaim (by simp) (by omega)]
    rw [hloop]
    dsimp only
    refine ⟨?_, rfl, huntouched⟩
    rw [if_neg hcap]

/-- Processing a row of 1x1 SP frames over an everywhere-occupied
strip: every frame extracts exactly one tile, and the pattern table
grows until it saturates at PCG_PT_MAX_COUNT. -/
theorem processFrames_one_px_run (iw ox oy : Int) :
    ∀ (c m : Nat) (img : Img) (st : RecState),
      (∀ n : Int, (m : Int) ≤ n → img n ≠ 0) →
      st.pcg.length ≤ PCG_PT_MAX_COUNT →
      (processFrames iw ConvMode.SP ox oy 1 1 ((List.range' m c).map (fun x => (0, x)))
        img st).st.pcg.length = min (st.pcg.length + c) PCG_PT_MAX_COUNT ∧
      (processFrames iw ConvMode.SP ox oy 1 1 ((List.range' m c).map (fun x => (0, x)))
        img st).trace.length = c := by
  intro c
  induction c with
  | zero =>
    intro m img st himg hcap
    constructor
    · show st.pcg.length = _
      omega
    · rfl
  | succ c ih =>
    intro m img st himg hcap
    rw [List.range'_succ, List.map_cons]
    show (processFrames iw ConvMode.SP ox oy 1 1
          ((List.range' (m + 1) c).map (fun x => (0, x)))
          (chop_sprite img iw ConvMode.SP ox oy ((m : Int) * 1) (((0 : Nat) : Int) * 1)
            1 1 st).img
          (chop_sprite img iw ConvMode.SP ox oy ((m : Int) * 1) (((0 : Nat) : Int) * 1)
            1 1 st).st).st.pcg.length = min (st.pcg.length + (c + 1)) PCG_PT_MAX_COUNT ∧
      ((chop_sprite img iw ConvMode.SP ox oy ((m : Int) * 1) (((0 : Nat) : Int) * 1)
          1 1 st).trace ++
        (processFrames iw ConvMode.SP ox oy 1 1
          ((List.range' (m + 1) c).map (fun x => (0, x)))
          (chop_sprite img iw ConvMode.SP ox oy ((m : Int) * 1) (((0 : Nat) : Int) * 1)
            1 1 st).img
          (chop_sprite img iw ConvMode.SP ox oy ((m : Int) * 1) (((0 : Nat) : Int) * 1)
            1 1 st).st).trace).length = c + 1
    have hc0 : (((0 : Nat) : Int)) * 1 = 0 := by simp
    have hm1 : (m : Int) * 1 = (m : Int) := by simp
    rw [hc0, hm1]
    obtain ⟨hp, ht, hi⟩ := chop_sprite_one_px iw ox oy (m : Int) st img (himg m le_rfl)
    have himg2 : ∀ n : Int, ((m + 1 : Nat) : Int) ≤ n →
        (chop_sprite img iw ConvMode.SP ox oy (m : Int) 0 1 1 st).img n ≠ 0 := by
      intro n hn
      rw [hi n (by push_cast at hn; omega)]
      exact himg n (by push_cast at hn; omega)
    obtain ⟨j1, j2⟩ := ih (m + 1)
      (chop_sprite img iw ConvMode.SP ox oy (m : Int) 0 1 1 st).img
      (chop_sprite img iw ConvMode.SP ox oy (m : Int) 0 1 1 st).st himg2
      (by rw [hp]; split <;> omega)
    have hlen := List.length_append
      (chop_sprite img iw ConvMode.SP ox oy (m : Int) 0 1 1 st).trace
      (processFrames iw ConvMode.SP ox oy 1 1 ((List.range' (m + 1) c).map (fun x => (0, x)))
        (chop_sprite img iw ConvMode.SP ox oy (m : Int) 0 1 1 st).img
        (chop_sprite img iw ConvMode.SP ox oy (m : Int) 0 1 1 st).st).trace
    generalize hB : (chop_sprite img iw ConvMode.SP ox oy (m : Int) 0 1 1 st).st.pcg.length = B
      at hp j1
    generalize hA : (processFrames iw ConvMode.SP ox oy 1 1
        ((List.range' (m + 1) c).map (fun x => (0, x)))
        (chop_sprite img iw ConvMode.SP ox oy (m : Int) 0 1 1 st).img
        (chop_sprite img iw ConvMode.SP ox oy (m : Int) 0 1 1 st).st).st.pcg.length = A
      at j1 ⊢
    rcases Nat.lt_or_ge st.pcg.length PCG_PT_MAX_COUNT with hlt | hge
    · rw [if_pos hlt] at hp
      refine ⟨j1.trans (congrArg (fun t => min t PCG_PT_MAX_COUNT) ?_), by omega⟩
      omega
    · rw [if_neg (by omega)] at hp
      have h1 : st.pcg.length = PCG_PT_MAX_COUNT := le_antisymm hcap hge
      refine ⟨j1.trans ?_, by omega⟩
      rw [hp, h1, Nat.min_eq_right (Nat.le_add_right _ _),
        Nat.min_eq_right (Nat.le_add_right _ _)]

/-! ## Claim C4 -/

/-- A one-row sheet's frame list is a single run of column indices. -/
theorem frameList_one_row (c : Nat) :
    frameList 1 c = (List.range' 0 c).map (fun x => (0, x)) := by
  have h1 : List.range 1 = [0] := rfl
  rw [frameList, h1, List.flatMap_cons, List.flatMap_nil, List.append_nil,
    List.range_eq_range']

/-- C4 (counterexample): a 32769x1 all-opaque sheet cut into 1x1
single-tile frames extracts 32769 sprites but stores only 32768
tiles: the sprite extracted once the pattern table is full is dropped
rather than appended as a new entry. -/
theorem c4_counterexample :
    conv_mode 1 1 = ConvMode.SP ∧
    (convert (fun _ => 1) 32769 1 1 1 (-1) (-1)).trace.length = 32769 ∧
    (convert (fun _ => 1) 32769 1 1 1 (-1) (-1)).st.pcg.length = PCG_PT_MAX_COUNT := by
  have hconv : convert (fun _ => 1) 32769 1 1 1 (-1) (-1) =
      processFrames 32769 ConvMode.SP 0 0 1 1 (frameList 1 32769) (fun _ => 1) record_init :=
    rfl
  obtain ⟨hp, ht⟩ := processFrames_one_px_run 32769 0 0 32769 0 (fun _ => 1) record_init
    (fun n _ => Nat.one_ne_zero) (by decide)
  rw [hconv, frameList_one_row]
  refine ⟨by decide, ht, ?_⟩
  rw [hp]
  decide

/-- C4: pattern lookup is a linear scan returning the first
byte-identical stored tile; in composite (XOBJ) mode any two extracted
sprites whose 128-byte tiles are identical and that were assigned
pattern indices receive the same index; in single-tile (SP) mode no
deduplication occurs: whenever the frame loop runs to completion,
every extracted tile is appended to the pattern table as a new entry
(a pattern-table-full abort instead drops the tile it extracted). -/
theorem c4_dedup (iw ox oy fw fh sx sy sw sh : Int) (pcg : List (List Nat))
    (t : List Nat) (k : Nat) (L : List (Nat × Nat)) (img : Img) (st : RecState) :
    (record_find_pcg_dat pcg t = some k ↔
      k < pcg.length ∧ pcg.getD k [] = t ∧ ∀ j, j < k → pcg.getD j [] ≠ t) ∧
    (∀ e1 ∈ (processFrames iw ConvMode.XOBJ ox oy fw fh L img st).trace,
      ∀ e2 ∈ (processFrames iw ConvMode.XOBJ ox oy fw fh L img st).trace,
        e1.tile = e2.tile → ∀ i1 i2, e1.ptIdx = some i1 → e2.ptIdx = some i2 → i1 = i2) ∧
    ((chop_sprite img iw ConvMode.SP ox oy sx sy sw sh st).exit = LoopExit.done →
      (chop_sprite img iw ConvMode.SP ox oy sx sy sw sh st).st.pcg =
        st.pcg ++ (chop_sprite img iw ConvMode.SP ox oy sx sy sw sh st).trace.map
          SpriteEv.tile) := by
  refine ⟨record_find_pcg_dat_eq_some_iff, ?_, ?_⟩
  · intro e1 he1 e2 he2 htile i1 i2 hi1 hi2
    have h1 := processFrames_dedup iw ox oy fw fh L img st e1 he1 i1 hi1
    have h2 := processFrames_dedup iw ox oy fw fh L img st e2 he2 i2 hi2
    rw [htile] at h1
    exact Option.some_inj.mp (h1.symm.trans h2)
  · intro hdone
    obtain ⟨hst, htr⟩ := chop_sprite_sp_state img iw ox oy sx sy sw sh st
    obtain ⟨-, hpcg⟩ := chopLoopF_sp iw (ox - 8) (oy - 8) sx sy sw sh
      (sw.toNat * sh.toNat) img st 0 0 0
    rw [chop_sprite_exit] at hdone
    rw [hst, htr]
    exact hpcg hdone

/-- C4 (witness): the scan finds the first of two identical stored
tiles; on a two-frame sheet whose frames hold byte-identical content
the second sprite reuses pattern index 0; a completed SP frame appends
its extracted tile. -/
theorem c4_witness :
    record_find_pcg_dat [[1, 2], [3, 4], [1, 2]] [1, 2] = some 0 ∧
    ((processFrames 2 ConvMode.XOBJ 0 0 1 1 [(0, 0), (0, 1)]
        (fun n => if n = 0 ∨ n = 1 then (1 : Nat) else 0) record_init).trace.map
      SpriteEv.ptIdx = [some 0, some 0]) ∧
    (chop_sprite (fun n => if n = 0 then (3 : Nat) else 0) 1 ConvMode.SP 0 0 0 0 1 1
        record_init).st.pcg =
      record_init.pcg ++
        (chop_sprite (fun n => if n = 0 then (3 : Nat) else 0) 1 ConvMode.SP 0 0 0 0 1 1
          record_init).trace.map SpriteEv.tile := by
  refine ⟨(c4_dedup 1 0 0 1 1 0 0 1 1 [[1, 2], [3, 4], [1, 2]] [1, 2] 0 [] (fun _ => 0)
      record_init).1.mpr (by decide), by decide,
    (c4_dedup 1 0 0 1 1 0 0 1 1 [] [1, 2] 0 [] (fun n => if n = 0 then (3 : Nat) else 0)
      record_init).2.2 (by decide)⟩

/-! ## Claim C3 -/

theorem toInt16_eq_self {v : Int} (h1 : -32768 ≤ v) (h2 : v ≤ 32767) : toInt16 v = v := by
  rw [toInt16]
  omega

theorem frmAdds_nil (sw sh ox oy lx ly : Int) : frmAdds sw sh ox oy lx ly [] = [] := rfl

theorem frmAdds_cons (sw sh ox oy lx ly : Int) (e : SpriteEv) (rest : List SpriteEv) :
    frmAdds sw sh ox oy lx ly (e :: rest) =
      match e.ptIdx with
      | none => []
      | some i =>
        ⟨toInt16 (Int.tmod e.cx sw - ox - lx), toInt16 (Int.tmod e.cy sh - oy - ly),
          toInt16 (i : Int), 0⟩ ::
          frmAdds sw sh ox oy (Int.tmod e.cx sw - ox) (Int.tmod e.cy sh - oy) rest := rfl

theorem deltasOk_cons (sw sh ox oy lx ly : Int) (e : SpriteEv) (rest : List SpriteEv) :
    deltasOk sw sh ox oy lx ly (e :: rest) =
      (decide (-32768 ≤ Int.tmod e.cx sw - ox - lx) &&
       decide (Int.tmod e.cx sw - ox - lx ≤ 32767) &&
       decide (-32768 ≤ Int.tmod e.cy sh - oy - ly) &&
       decide (Int.tmod e.cy sh - oy - ly ≤ 32767) &&
       deltasOk sw sh ox oy (Int.tmod e.cx sw - ox) (Int.tmod e.cy sh - oy) rest) := rfl

/-- `chop_sprite` never changes the FRM table after the loop: the
post-loop REF commit leaves it alone. -/
theorem chop_sprite_frm (img : Img) (iw : Int) (mode : ConvMode) (ox oy sx sy sw sh : Int)
    (st : RecState) :
    (chop_sprite img iw mode ox oy sx sy sw sh st).st.frm =
      (chopLoopF iw mode (ox - 8) (oy - 8) sx sy sw sh
        (sw.toNat * sh.toNat) img st 0 0 0).st.frm := by
  rw [chop_sprite_eq]
  dsimp only
  rcases hx : (chopLoopF iw mode (ox - 8) (oy - 8) sx sy sw sh
      (sw.toNat * sh.toNat) img st 0 0 0).exit with _ | _ | _
  · cases mode
    · exact record_ref_dat_frm _ _ _
    · rfl
  · rfl
  · rfl

/-- As long as the FRM byte area cannot fill during the run, the XOBJ
loop appends exactly the entries read off its trace. -/
theorem chopLoopF_frm_adds (iw ox oy sx sy sw sh : Int) :
    ∀ (fuel : Nat) (img : Img) (st : RecState) (sp : Nat) (lx ly : Int),
      8 * st.frm.length +
        8 * (chopLoopF iw ConvMode.XOBJ ox oy sx sy sw sh fuel img st sp lx ly).trace.length ≤
          PCG_FRM_MAX_COUNT →
      (chopLoopF iw ConvMode.XOBJ ox oy sx sy sw sh fuel img st sp lx ly).st.frm =
        st.frm ++ frmAdds sw sh ox oy lx ly
          (chopLoopF iw ConvMode.XOBJ ox oy sx sy sw sh fuel img st sp lx ly).trace := by
  intro fuel
  induction fuel with
  | zero =>
    intro img st sp lx ly hcap
    rcases hclaim : claim img iw sx sy sw sh with _ | hit
    · rw [chopLoopF_claim_none hclaim]
      rw [frmAdds_nil, List.append_nil]
    · rw [chopLoopF_zero_some hclaim]
      rw [frmAdds_nil, List.append_nil]
  | succ f ih =>
    intro img st sp lx ly hcap
    rcases hclaim : claim img iw sx sy sw sh with _ | ⟨cx, cy⟩
    · rw [chopLoopF_claim_none hclaim]
      rw [frmAdds_nil, List.append_nil]
    · rcases hfind : record_find_pcg_dat st.pcg (clip16 img iw cx cy (sx + sw) (sy + sh)).1
          with _ | i
      · by_cases hpcg : PCG_PT_MAX_COUNT ≤ st.pcg.length
        · rw [chopLoopF_succ_full hclaim
            (by rw [if_pos (rfl : ConvMode.XOBJ = ConvMode.XOBJ)]; exact hfind) hpcg]
          rw [frmAdds_cons]
          dsimp only
          rw [List.append_nil]
        · rw [chopLoopF_succ_miss hclaim hfind (by omega)] at hcap ⊢
          dsimp only at hcap ⊢
          rw [List.length_cons] at hcap
          have hPfrm := record_pcg_dat_frm st (clip16 img iw cx cy (sx + sw) (sy + sh)).1
          have hlen : 8 * (record_pcg_dat st
              (clip16 img iw cx cy (sx + sw) (sy + sh)).1).frm.length < PCG_FRM_MAX_COUNT := by
            rw [hPfrm]
            omega
          have hfrm2 := record_frm_dat_lt (Int.tmod cx sw - ox - lx) (Int.tmod cy sh - oy - ly)
            ((st.pcg.length : Nat) : Int) 0 hlen
          have hlen2 : (record_frm_dat
              (record_pcg_dat st (clip16 img iw cx cy (sx + sw) (sy + sh)).1)
              (Int.tmod cx sw - ox - lx) (Int.tmod cy sh - oy - ly)
              ((st.pcg.length : Nat) : Int) 0).frm.length =
              st.frm.length + 1 := by
            rw [hfrm2, List.length_append, hPfrm]
            simp
          have hih := ih (clip16 img iw cx cy (sx + sw) (sy + sh)).2
            (record_frm_dat (record_pcg_dat st (clip16 img iw cx cy (sx + sw) (sy + sh)).1)
              (Int.tmod cx sw - ox - lx) (Int.tmod cy sh - oy - ly)
              ((st.pcg.length : Nat) : Int) 0)
            ((sp + 1) % 65536) (Int.tmod cx sw - ox) (Int.tmod cy sh - oy)
            (by rw [hlen2]; omega)
          rw [hih, hfrm2, hPfrm, frmAdds_cons]
          dsimp only
          rw [List.append_assoc, List.singleton_append, Nat.zero_mod]
      · rw [chopLoopF_succ_found hclaim hfind] at hcap ⊢
        dsimp only at hcap ⊢
        rw [List.length_cons] at hcap
        have hlen : 8 * st.frm.length < PCG_FRM_MAX_COUNT := by omega
        have hfrm2 := record_frm_dat_lt (Int.tmod cx sw - ox - lx) (Int.tmod cy sh - oy - ly)
          ((i : Nat) : Int) 0 hlen
        have hlen2 : (record_frm_dat st (Int.tmod cx sw - ox - lx) (Int.tmod cy sh - oy - ly)
            ((i : Nat) : Int) 0).frm.length = st.frm.length + 1 := by
          rw [hfrm2, List.length_append]
          simp
        have hih := ih (clip16 img iw cx cy (sx + sw) (sy + sh)).2
          (record_frm_dat st (Int.tmod cx sw - ox - lx) (Int.tmod cy sh - oy - ly)
            ((i : Nat) : Int) 0)
          ((sp + 1) % 65536) (Int.tmod cx sw - ox) (Int.tmod cy sh - oy)
          (by rw [hlen2]; omega)
        rw [hih, hfrm2, frmAdds_cons]
        dsimp only
        rw [List.append_assoc, List.singleton_append, Nat.zero_mod]

/-- Telescoping: with all deltas in int16 range and every sprite
stored, the running sum of the appended entries' delta fields
reproduces each sprite's absolute placement. -/
theorem frmAdds_take_foldl (sw sh ox oy : Int) :
    ∀ (tr : List SpriteEv) (lx ly : Int) (k : Nat),
      k < tr.length →
      (∀ e ∈ tr, e.ptIdx.isSome = true) →
      deltasOk sw sh ox oy lx ly tr = true →
      (((frmAdds sw sh ox oy lx ly tr).take (k + 1)).foldl (fun s e => s + e.dx) lx =
        Int.tmod (tr.getD k ⟨0, 0, [], none⟩).cx sw - ox) ∧
      (((frmAdds sw sh ox oy lx ly tr).take (k + 1)).foldl (fun s e => s + e.dy) ly =
        Int.tmod (tr.getD k ⟨0, 0, [], none⟩).cy sh - oy) := by
  intro tr
  induction tr with
  | nil =>
    intro lx ly k hk hall hok
    exact absurd hk (by simp)
  | cons e rest ih =>
    intro lx ly k hk hall hok
    obtain ⟨i, hi⟩ : ∃ i, e.ptIdx = some i := by
      have hs := hall e (List.mem_cons_self e rest)
      rcases hp : e.ptIdx with _ | j
      · rw [hp] at hs
        exact absurd hs (by simp)
      · exact ⟨j, rfl⟩
    rw [deltasOk_cons] at hok
    simp only [Bool.and_eq_true, decide_eq_true_eq] at hok
    obtain ⟨⟨⟨⟨h1, h2⟩, h3⟩, h4⟩, hok2⟩ := hok
    have hdx : toInt16 (Int.tmod e.cx sw - ox - lx) = Int.tmod e.cx sw - ox - lx :=
      toInt16_eq_self h1 h2
    have hdy : toInt16 (Int.tmod e.cy sh - oy - ly) = Int.tmod e.cy sh - oy - ly :=
      toInt16_eq_self h3 h4
    rw [frmAdds_cons, hi]
    dsimp only
    rcases k with _ | j
    · constructor
      · rw [List.take_succ_cons, List.take_zero, List.foldl_cons, List.foldl_nil,
          List.getD_cons_zero]
        dsimp only
        rw [hdx]
        ring
      · rw [List.take_succ_cons, List.take_zero, List.foldl_cons, List.foldl_nil,
          List.getD_cons_zero]
        dsimp only
        rw [hdy]
        ring
    · have hih := ih (Int.tmod e.cx sw - ox) (Int.tmod e.cy sh - oy) j
        (by rw [List.length_cons] at hk; omega)
        (fun u hu => hall u (List.mem_cons_of_mem _ hu)) hok2
      constructor
      · rw [List.take_succ_cons, List.foldl_cons, List.getD_cons_succ]
        dsimp only
        rw [hdx]
        have hacc : lx + (Int.tmod e.cx sw - ox - lx) = Int.tmod e.cx sw - ox := by ring
        rw [hacc]
        exact hih.1
      · rw [List.take_succ_cons, List.foldl_cons, List.getD_cons_succ]
        dsimp only
        rw [hdy]
        have hacc : ly + (Int.tmod e.cy sh - oy - ly) = Int.tmod e.cy sh - oy := by ring
        rw [hacc]
        exact hih.2

/-- C3: in composite (XOBJ) mode, provided no sprite of the frame was
dropped (every trace event carries a pattern index), the FRM area
cannot fill during the frame, and every delta fits in a signed 16-bit
value, the cumulative sum of the (dx, dy) delta fields over the
frame's new composition entries, starting from (0, 0), equals the
absolute placement (vx, vy) of each sprite, where
vx = (tile_col tmod frame_w) - (origin_x - 8) and
vy = (tile_row tmod frame_h) - (origin_y - 8). -/
theorem c3_delta_roundtrip (img : Img) (iw ox oy sx sy sw sh : Int) (st : RecState) (k : Nat)
    (hfill : 8 * st.frm.length +
      8 * (chop_sprite img iw ConvMode.XOBJ ox oy sx sy sw sh st).trace.length ≤
        PCG_FRM_MAX_COUNT)
    (hall : ∀ e ∈ (chop_sprite img iw ConvMode.XOBJ ox oy sx sy sw sh st).trace,
      e.ptIdx.isSome = true)
    (hok : deltasOk sw sh (ox - 8) (oy - 8) 0 0
      (chop_sprite img iw ConvMode.XOBJ ox oy sx sy sw sh st).trace = true)
    (hk : k < (chop_sprite img iw ConvMode.XOBJ ox oy sx sy sw sh st).trace.length) :
    ((((chop_sprite img iw ConvMode.XOBJ ox oy sx sy sw sh st).st.frm.drop
        st.frm.length).take (k + 1)).foldl (fun s e => s + e.dx) 0 =
      Int.tmod ((chop_sprite img iw ConvMode.XOBJ ox oy sx sy sw sh st).trace.getD k
        ⟨0, 0, [], none⟩).cx sw - (ox - 8)) ∧
    ((((chop_sprite img iw ConvMode.XOBJ ox oy sx sy sw sh st).st.frm.drop
        st.frm.length).take (k + 1)).foldl (fun s e => s + e.dy) 0 =
      Int.tmod ((chop_sprite img iw ConvMode.XOBJ ox oy sx sy sw sh st).trace.getD k
        ⟨0, 0, [], none⟩).cy sh - (oy - 8)) := by
  have htr := (chop_sprite_xobj_state img iw ox oy sx sy sw sh st).2
  have hfrm := chop_sprite_frm img iw ConvMode.XOBJ ox oy sx sy sw sh st
  rw [htr] at hfill hall hok hk ⊢
  rw [hfrm]
  rw [chopLoopF_frm_adds iw (ox - 8) (oy - 8) sx sy sw sh
    (sw.toNat * sh.toNat) img st 0 0 0 hfill]
  rw [List.drop_left]
  exact frmAdds_take_foldl sw sh (ox - 8) (oy - 8) _ 0 0 k hk hall hok

/-- C3 (witness): a 4x4 frame with two pixels close together yields
one composition entry whose delta sum reproduces the placement
(7, 7). -/
theorem c3_witness :
    ((((chop_sprite (fun n => if n = 9 ∨ n = 7 then (5 : Nat) else 0) 4 ConvMode.XOBJ
        2 2 0 0 4 4 record_init).st.frm.drop record_init.frm.length).take (0 + 1)).foldl
      (fun s e => s + e.dx) 0 = 7) ∧
    ((((chop_sprite (fun n => if n = 9 ∨ n = 7 then (5 : Nat) else 0) 4 ConvMode.XOBJ
        2 2 0 0 4 4 record_init).st.frm.drop record_init.frm.length).take (0 + 1)).foldl
      (fun s e => s + e.dy) 0 = 7) := by
  obtain ⟨h1, h2⟩ := c3_delta_roundtrip (fun n => if n = 9 ∨ n = 7 then (5 : Nat) else 0)
    4 2 2 0 0 4 4 record_init 0 (by decide) (by decide) (by decide) (by decide)
  exact ⟨h1.trans (by decide), h2.trans (by decide)⟩

/-- C3 (counterexample): on a 32768-pixel-wide single-row frame whose
only opaque pixel sits in the last column, the single composition
entry's stored delta wrapped through the int16 field: the cumulative
delta sum is -32761, while the absolute placement is
vx = (32767 tmod 32768) - (0 - 8) = 32775. -/
theorem c3_counterexample :
    ((chop_sprite (fun n => if n = 32767 then (1 : Nat) else 0) 32768 ConvMode.XOBJ
        0 0 0 0 32768 1 record_init).st.frm.map FrmEntry.dx = [-32761]) ∧
    Int.tmod 32767 32768 - (0 - 8) = 32775 ∧ ((-32761 : Int) ≠ 32775) := by
  have hclaim : claim (fun n => if n = 32767 then (1 : Nat) else 0) 32768 0 0 32768 1 =
      some (32767, 0) := by
    rw [claim_eq_some_iff]
    constructor
    · rw [claimRow_eq_some_iff]
      refine ⟨le_refl 0, by omega, ?_, ?_⟩
      · rw [rowOcc_eq_true_iff]
        exact ⟨32767, by omega, by omega, by decide⟩
      · intro y hy1 hy2
        exact absurd hy2 (by omega)
    · rw [claimCol_eq_some_iff]
      refine ⟨by decide, by decide, ?_, ?_⟩
      · rw [colOcc_eq_true_iff]
        exact ⟨0, le_refl 0, by decide, by decide⟩
      · intro x hx1 hx2
        rw [Bool.eq_false_iff]
        intro hocc
        rw [colOcc_eq_true_iff] at hocc
        obtain ⟨y, hy1, hy2, hne⟩ := hocc
        have hymax : y < 0 + 1 := lt_of_lt_of_le hy2 (min_le_right _ _)
        have heq : x + y * 32768 = 32767 := by
          by_contra hc
          exact hne (by
            show (if x + y * 32768 = 32767 then (1 : Nat) else 0) = 0
            rw [if_neg hc])
        omega
  have herase : rectTransparent
      (clip16 (fun n => if n = 32767 then (1 : Nat) else 0) 32768 32767 0
        (0 + 32768) (0 + 1)).2 32768 0 0 32768 1 := by
    intro x y hx1 hx2 hy1 hy2
    have hy0 : y = 0 := by omega
    subst hy0
    by_cases hx : x = 32767
    · subst hx
      exact clip16_snd_apply_in (by omega) (by omega) (by omega) (by omega) (by omega) (by omega)
    · rw [clip16_snd_apply]
      split
      · rfl
      · show (if x + 0 * 32768 = 32767 then (1 : Nat) else 0) = 0
        rw [if_neg (by omega)]
  have hclaim2 : claim (clip16 (fun n => if n = 32767 then (1 : Nat) else 0) 32768 32767 0
      (0 + 32768) (0 + 1)).2 32768 0 0 32768 1 = none := claim_eq_none_iff.mpr herase
  have hfind : record_find_pcg_dat record_init.pcg
      (clip16 (fun n => if n = 32767 then (1 : Nat) else 0) 32768 32767 0
        (0 + 32768) (0 + 1)).1 = none := rfl
  have hcap : record_init.pcg.length < PCG_PT_MAX_COUNT := by decide
  have hfuel : (32768 : Int).toNat * (1 : Int).toNat = 32767 + 1 := by decide
  have hloop : chopLoopF 32768 ConvMode.XOBJ (0 - 8) (0 - 8) 0 0 32768 1
      ((32768 : Int).toNat * (1 : Int).toNat)
      (fun n => if n = 32767 then (1 : Nat) else 0) record_init 0 0 0 =
      ⟨(clip16 (fun n => if n = 32767 then (1 : Nat) else 0) 32768 32767 0
          (0 + 32768) (0 + 1)).2,
        record_frm_dat (record_pcg_dat record_init
          (clip16 (fun n => if n = 32767 then (1 : Nat) else 0) 32768 32767 0
            (0 + 32768) (0 + 1)).1)
          (Int.tmod 32767 32768 - (0 - 8) - 0) (Int.tmod 0 1 - (0 - 8) - 0)
          ((record_init.pcg.length : Nat) : Int) 0,
        1 % 65536, LoopExit.done,
        [⟨32767, 0, (clip16 (fun n => if n = 32767 then (1 : Nat) else 0) 32768 32767 0
          (0 + 32768) (0 + 1)).1, some record_init.pcg.length⟩]⟩ := by
    rw [hfuel, chopLoopF_succ_miss hclaim hfind hcap]
    dsimp only
    rw [chopLoopF_claim_none hclaim2]
  have hfrm : (chop_sprite (fun n => if n = 32767 then (1 : Nat) else 0) 32768 ConvMode.XOBJ
      0 0 0 0 32768 1 record_init).st.frm =
      [⟨toInt16 (Int.tmod 32767 32768 - (0 - 8) - 0), toInt16 (Int.tmod 0 1 - (0 - 8) - 0),
        toInt16 ((record_init.pcg.length : Nat) : Int), 0 % 65536⟩] := by
    have hlen : 8 * (record_pcg_dat record_init
        (clip16 (fun n => if n = 32767 then (1 : Nat) else 0) 32768 32767 0
          (0 + 32768) (0 + 1)).1).frm.length < PCG_FRM_MAX_COUNT := by
      rw [record_pcg_dat_frm]
      decide
    rw [chop_sprite_frm, hloop]
    dsimp only
    rw [record_frm_dat_lt _ _ _ _ hlen, record_pcg_dat_frm]
    rfl
  refine ⟨?_, by decide, by decide⟩
  rw [hfrm]
  decide

end Png2xsp
